import Mathlib

/-!
Verification of the `eg_heap.py` priority-queue implementation.

The Python program is shallowly embedded as follows.

* Python's object store is modelled by an `arena : List (HeapNode V)`; a node
  "object" is identified by its index (its id) in the arena, and the heap's
  backing list `self.heap` is a `List Nat` of node ids.  This makes object
  aliasing observable: `update_priority` mutates a node in place (through the
  arena), which is visible through every list that holds the node's id —
  exactly as in Python, where `snapshot` stores a shallow copy `self.heap[:]`.
* The `heapq` standard-library calls (`heappush`, `heappop`, `heapify`) are
  embedded from their CPython reference implementation, generically over a
  comparison function `lt` (Python dispatches `<` to `HeapNode.__lt__`).
* Loops are written with an explicit fuel argument so that every definition is
  structurally recursive and computes by kernel reduction; each caller passes
  fuel that provably suffices (the relevant lemmas carry the bound).
* Machine-level `int` values (priorities, the `size` counter) are modelled by
  `Int`; Python integers are unbounded so no wrap-around is involved.
-/

set_option maxHeartbeats 1000000

namespace EG

/-! ### List helper lemmas -/

theorem getD_set_self {α : Type} {l : List α} {i : Nat} (h : i < l.length) (a d : α) :
    (l.set i a).getD i d = a := by
  rw [List.getD_eq_getElem _ _ (by simpa using h)]
  exact List.getElem_set_self (by simpa using h)

theorem getD_set_ne {α : Type} {l : List α} {i j : Nat} (h : i ≠ j) (a d : α) :
    (l.set i a).getD j d = l.getD j d := by
  by_cases hj : j < l.length
  · rw [List.getD_eq_getElem _ _ (by simpa using hj), List.getD_eq_getElem _ _ hj]
    exact List.getElem_set_ne h _
  · rw [List.getD_eq_default _ _ (by simpa using Nat.le_of_not_lt hj),
      List.getD_eq_default _ _ (Nat.le_of_not_lt hj)]

theorem set_getD_self {α : Type} {l : List α} {i : Nat} (d : α) :
    l.set i (l.getD i d) = l := by
  induction l generalizing i with
  | nil => rfl
  | cons x xs ih =>
    cases i with
    | zero => rfl
    | succ n =>
      have : (x :: xs).getD (n + 1) d = xs.getD n d := rfl
      rw [this]
      simp only [List.set]
      rw [ih]

theorem dropLast_getD {α : Type} {l : List α} {i : Nat} (h : i < l.length - 1) (d : α) :
    l.dropLast.getD i d = l.getD i d := by
  have h1 : i < l.dropLast.length := by simpa using h
  have h2 : i < l.length := by omega
  rw [List.getD_eq_getElem _ _ h1, List.getD_eq_getElem _ _ h2]
  exact List.getElem_dropLast _ _ _

theorem getLastD_eq_getD {α : Type} {l : List α} (d : α) :
    l.getLastD d = l.getD (l.length - 1) d := by
  rw [List.getLastD_eq_getLast? , List.getLast?_eq_getElem?]
  rw [List.getD_eq_getD_get?, List.get?_eq_getElem?]

theorem dropLast_concat_getLastD {α : Type} {l : List α} (h : l ≠ []) (d : α) :
    l.dropLast ++ [l.getLastD d] = l := by
  have := List.dropLast_concat_getLast h
  rw [List.getLastD_eq_getLast?, List.getLast?_eq_getLast _ h]
  exact this

/-- Replacing the element at an in-range index changes the multiset by
swapping out the old element for the new one. -/
theorem perm_set {α : Type} {l : List α} {i : Nat} (h : i < l.length) (a d : α) :
    (l.set i a ++ [l.getD i d]).Perm (l ++ [a]) := by
  induction l generalizing i with
  | nil => simp at h
  | cons x xs ih =>
    cases i with
    | zero =>
      have hg : (x :: xs).getD 0 d = x := rfl
      rw [hg]
      simp only [List.set, List.cons_append]
      have p1 : (a :: (xs ++ [x])).Perm (a :: (x :: xs)) :=
        List.Perm.cons a (List.perm_append_singleton x xs)
      have p2 : (a :: x :: xs).Perm (x :: a :: xs) := List.Perm.swap x a xs
      have p3 : (x :: a :: xs).Perm (x :: (xs ++ [a])) :=
        List.Perm.cons x (List.perm_append_singleton a xs).symm
      exact (p1.trans p2).trans p3
    | succ n =>
      have hg : (x :: xs).getD (n + 1) d = xs.getD n d := rfl
      rw [hg]
      simp only [List.set, List.cons_append]
      exact List.Perm.cons x (ih (by simpa using h))

theorem ms_set {α : Type} {l : List α} {i : Nat} (h : i < l.length) (a d : α) :
    ((l.set i a : List α) : Multiset α) + {l.getD i d} = (l : Multiset α) + {a} := by
  have := perm_set h a d
  have h2 := (Multiset.coe_eq_coe).2 this
  simpa [← Multiset.coe_add] using h2

/-! ### The node model and its total order

`HeapNode` carries a numeric priority, a value and the insertion sequence
number (`insertion_count` in the source).  `__lt__` compares by priority,
breaking ties by sequence number. -/

structure HeapNode (V : Type) where
  priority : Int
  value : V
  insertion_count : Nat
deriving DecidableEq, Repr

instance {V : Type} [Inhabited V] : Inhabited (HeapNode V) := ⟨⟨0, default, 0⟩⟩

/-- `HeapNode.__lt__`: priority ascending, then insertion sequence ascending. -/
def HeapNode.ltB {V : Type} (a b : HeapNode V) : Bool :=
  if a.priority = b.priority then decide (a.insertion_count < b.insertion_count)
  else decide (a.priority < b.priority)

/-- The non-strict order induced by `__lt__`: `a ≤ b` iff `¬ (b < a)`. -/
def HeapNode.leB {V : Type} (a b : HeapNode V) : Prop := HeapNode.ltB b a = false

theorem ltB_asymm {V : Type} (a b : HeapNode V) (h : HeapNode.ltB a b = true) :
    HeapNode.ltB b a = false := by
  simp only [HeapNode.ltB] at *
  split_ifs at * with h1 h2 h3 <;> simp_all <;> omega

theorem ltB_trans {V : Type} (a b c : HeapNode V) (h1 : HeapNode.ltB a b = true)
    (h2 : HeapNode.ltB b c = true) : HeapNode.ltB a c = true := by
  simp only [HeapNode.ltB] at *
  split_ifs at * with g1 g2 g3 <;> simp_all <;> omega

theorem ltB_le_trans {V : Type} (a b c : HeapNode V) (h1 : HeapNode.ltB b a = false)
    (h2 : HeapNode.ltB c b = false) : HeapNode.ltB c a = false := by
  simp only [HeapNode.ltB] at *
  split_ifs at * with g1 g2 g3 <;> simp_all <;> omega

/-! ### Generic embedding of CPython's `heapq`

All functions below are generic in the element type and the boolean strict
comparison `lt` (Python's `<` on the elements).  In the heap state the
elements are node ids, compared through the arena. -/

section HeapQ

variable {α : Type} [Inhabited α]

/-- Parent index of heap slot `c`: Python `(pos - 1) >> 1` / `(idx - 1) // 2`. -/
def parentIdx (c : Nat) : Nat := (c - 1) / 2

/-- Loop of CPython `heapq._siftdown(heap, startpos, pos)`: the hole at `pos`
moves toward `startpos` while `newitem` is smaller than the parent; parents are
shifted down into the hole.  `fuel ≥ pos` makes the fuel irrelevant. -/
def upLoop (lt : α → α → Bool) (newitem : α) :
    Nat → List α → Nat → Nat → List α × Nat
  | 0, heap, _, pos => (heap, pos)
  | fuel + 1, heap, startpos, pos =>
    if pos > startpos then
      let pp := parentIdx pos
      let parent := heap.getD pp default
      if lt newitem parent then upLoop lt newitem fuel (heap.set pos parent) startpos pp
      else (heap, pos)
    else (heap, pos)

/-- CPython `heapq._siftdown(heap, startpos, pos)` (a sift-up toward the root). -/
def siftdownPy (lt : α → α → Bool) (heap : List α) (startpos pos : Nat) : List α :=
  let newitem := heap.getD pos default
  let r := upLoop lt newitem pos heap startpos pos
  r.1.set r.2 newitem

/-- Loop of CPython `heapq._siftup(heap, pos)`: the hole at `pos` descends to a
leaf, always moving the smaller child up (the right child is taken when
`not heap[childpos] < heap[rightpos]`).  `fuel ≥ heap.length - pos` makes the
fuel irrelevant. -/
def downLoop (lt : α → α → Bool) : Nat → List α → Nat → List α × Nat
  | 0, heap, pos => (heap, pos)
  | fuel + 1, heap, pos =>
    let endpos := heap.length
    let childpos := 2 * pos + 1
    if childpos < endpos then
      let rightpos := childpos + 1
      let cp :=
        if rightpos < endpos &&
            !(lt (heap.getD childpos default) (heap.getD rightpos default)) then rightpos
        else childpos
      downLoop lt fuel (heap.set pos (heap.getD cp default)) cp
    else (heap, pos)

/-- CPython `heapq._siftup(heap, pos)`: sift the hole to a leaf, drop the item
there, then sift it back up with `_siftdown`. -/
def siftupPy (lt : α → α → Bool) (heap : List α) (pos : Nat) : List α :=
  let newitem := heap.getD pos default
  let r := downLoop lt heap.length heap pos
  siftdownPy lt (r.1.set r.2 newitem) pos r.2

/-- CPython `heapq.heappush`: append, then `_siftdown(heap, 0, len(heap)-1)`. -/
def heappushPy (lt : α → α → Bool) (heap : List α) (item : α) : List α :=
  siftdownPy lt (heap ++ [item]) 0 heap.length

/-- CPython `heapq.heappop`: pop the last element; if elements remain, move it
to the root and `_siftup(heap, 0)`.  The empty case returns `none`; Python
would raise `IndexError` there, but `MinHeap.pop` guards emptiness first. -/
def heappopPy (lt : α → α → Bool) (heap : List α) : Option α × List α :=
  if heap.isEmpty then (none, heap)
  else
    let lastelt := heap.getLastD default
    let rest := heap.dropLast
    if rest.isEmpty then (some lastelt, rest)
    else (some (rest.getD 0 default), siftupPy lt (rest.set 0 lastelt) 0)

/-- CPython `heapq.heapify`: `for i in reversed(range(n//2)): _siftup(heap, i)`.
`heapifyAux lt k heap` performs the sift-ups at indices `k-1, k-2, …, 0`. -/
def heapifyAux (lt : α → α → Bool) : Nat → List α → List α
  | 0, heap => heap
  | i + 1, heap => heapifyAux lt i (siftupPy lt heap i)

def heapifyPy (lt : α → α → Bool) (heap : List α) : List α :=
  heapifyAux lt (heap.length / 2) heap

/-- Loop of `MinHeap._sift_down`: note that the source bounds children by
`self.size`, not `len(self.heap)`, and keeps comparing against the original
`temp` for the left child.  `fuel > size` makes the fuel irrelevant. -/
def msiftLoop (lt : α → α → Bool) (size : Int) (temp : α) :
    Nat → List α → Nat → List α × Nat
  | 0, heap, idx => (heap, idx)
  | fuel + 1, heap, idx =>
    let left := 2 * idx + 1
    let right := 2 * idx + 2
    let s1 := if (left : Int) < size && lt (heap.getD left default) temp then left else idx
    let s2 :=
      if (right : Int) < size && lt (heap.getD right default) (heap.getD s1 default) then right
      else s1
    if s2 = idx then (heap, idx)
    else msiftLoop lt size temp fuel (heap.set idx (heap.getD s2 default)) s2

/-- `MinHeap._sift_down(idx)` on a backing list `heap` with logical size `size`. -/
def msiftDown (lt : α → α → Bool) (size : Int) (heap : List α) (idx : Nat) : List α :=
  let temp := heap.getD idx default
  let r := msiftLoop lt size temp (size.toNat + 1) heap idx
  r.1.set r.2 temp

end HeapQ

/-- Error values that can propagate out of the embedded operations.
`typeError` and `valueError` are the Python built-ins.  `configurationError` is
modelled from the spec: §7 names a `ConfigurationError` for construction
failures, but the source defines no such class and never raises it; the
constructor exists only so that statements can compare against it. -/
inductive PyError where
  | typeError
  | valueError
  | configurationError
deriving DecidableEq, Repr

section USift

variable {α : Type} [Inhabited α]

/-- Loop of `MinHeap._sift_up`.  The comparison `self.heap[parent_idx] <= temp`
is `le`, which may raise (on `HeapNode` it always does, see `nodeLeExc`). -/
def usiftLoop (le : α → α → Except PyError Bool) (temp : α) :
    Nat → List α → Nat → Except PyError (List α × Nat)
  | 0, heap, idx => .ok (heap, idx)
  | fuel + 1, heap, idx =>
    if idx > 0 then
      let pp := parentIdx idx
      match le (heap.getD pp default) temp with
      | .error e => .error e
      | .ok true => .ok (heap, idx)
      | .ok false => usiftLoop le temp fuel (heap.set idx (heap.getD pp default)) pp
    else .ok (heap, idx)

/-- `MinHeap._sift_up(idx)`. -/
def msiftUp (le : α → α → Except PyError Bool) (heap : List α) (idx : Nat) :
    Except PyError (List α) := do
  let temp := heap.getD idx default
  let r ← usiftLoop le temp idx heap idx
  pure (r.1.set r.2 temp)

end USift

/-- Python's `a <= b` on `HeapNode`s.  The dataclass is declared with the
default `order=False`, so only `__eq__` is generated; the class itself defines
only `__lt__`.  Python 3 derives no ordering operator from `__lt__`, hence
`<=` between two `HeapNode`s always raises `TypeError`. -/
def nodeLeExc {V : Type} (_a _b : HeapNode V) : Except PyError Bool :=
  .error .typeError

/-! ### The heap invariant, and lemmas about the sift loops -/

section HeapLemmas

variable {α : Type} [Inhabited α] (lt : α → α → Bool)

/-- The binary-min-heap invariant for a backing list: every in-range slot is
not smaller than its parent.  (Equivalently: `node[i] <= node[c]` for every
in-range parent/child pair, since `c`'s parent is `(c-1)/2`.) -/
def heapOk (l : List α) : Prop :=
  ∀ c, c < l.length → 0 < c →
    lt (l.getD c default) (l.getD (parentIdx c) default) = false

/-- The heap invariant holds for every parent/child pair not involving slot
`pos` (the "hole"). -/
def okExcept (l : List α) (pos : Nat) : Prop :=
  ∀ c, c < l.length → 0 < c → c ≠ pos → parentIdx c ≠ pos →
    lt (l.getD c default) (l.getD (parentIdx c) default) = false

instance (l : List α) : Decidable (heapOk lt l) := by
  unfold heapOk; infer_instance

instance (l : List α) (pos : Nat) : Decidable (okExcept lt l pos) := by
  unfold okExcept; infer_instance

theorem heapOk_okExcept {l : List α} {pos : Nat} (h : heapOk lt l) : okExcept lt l pos :=
  fun c hc h0 _ _ => h c hc h0

theorem okExcept_nil (pos : Nat) : okExcept lt ([] : List α) pos := by
  intro c hc; simp at hc

/-- Children of slot `p` are exactly the slots `2p+1` and `2p+2`. -/
theorem parentIdx_eq_iff {c p : Nat} (hc : 0 < c) :
    parentIdx c = p ↔ (c = 2 * p + 1 ∨ c = 2 * p + 2) := by
  simp only [parentIdx]; omega

theorem parentIdx_lt {c : Nat} (hc : 0 < c) : parentIdx c < c := by
  simp only [parentIdx]; omega

/-- Writing `x` into the hole yields a heap, provided the pairs away from the
hole hold, `x` is below the hole's children, and above the hole's parent. -/
theorem heapOk_set_of {l : List α} {pos : Nat} {x : α} (hpos : pos < l.length)
    (h1 : okExcept lt l pos)
    (h2 : ∀ c, c < l.length → parentIdx c = pos → 0 < c → lt (l.getD c default) x = false)
    (h3 : 0 < pos → lt x (l.getD (parentIdx pos) default) = false) :
    heapOk lt (l.set pos x) := by
  intro c hc h0
  rw [List.length_set] at hc
  by_cases hcp : c = pos
  · subst hcp
    have hpp : parentIdx c < c := parentIdx_lt h0
    rw [getD_set_self hpos, getD_set_ne (by omega)]
    exact h3 h0
  · by_cases hpc : parentIdx c = pos
    · rw [getD_set_ne (fun h => hcp h.symm), hpc, getD_set_self hpos]
      exact h2 c hc hpc h0
    · rw [getD_set_ne (fun h => hcp h.symm), getD_set_ne (fun h => hpc h.symm)]
      exact h1 c hc h0 hcp hpc

theorem okExcept_set {l : List α} {pos : Nat} (a : α) (h : okExcept lt l pos) :
    okExcept lt (l.set pos a) pos := by
  intro c hc h0 hcp hpc
  rw [List.length_set] at hc
  rw [getD_set_ne (fun h => hcp h.symm), getD_set_ne (fun h => hpc h.symm)]
  exact h c hc h0 hcp hpc

/-- Moving the value at slot `j` into slot `i` and then overwriting slot `j`
is, at the multiset level, just overwriting slot `i`. -/
theorem ms_set_move {l : List α} {i j : Nat} (hij : i ≠ j) (hi : i < l.length)
    (hj : j < l.length) (y : α) :
    (((l.set i (l.getD j default)).set j y : List α) : Multiset α)
      = ((l.set i y : List α) : Multiset α) := by
  set d : α := default with hd
  set v : α := l.getD j d with hv
  set g : α := l.getD i d with hg
  have hj' : j < (l.set i v).length := by simpa using hj
  have e1 : (((l.set i v).set j y : List α) : Multiset α) + {v}
      = ((l.set i v : List α) : Multiset α) + {y} := by
    have := ms_set hj' y d
    rwa [getD_set_ne hij] at this
  have e2 : ((l.set i v : List α) : Multiset α) + {g} = (l : Multiset α) + {v} :=
    ms_set hi v d
  have e3 : ((l.set i y : List α) : Multiset α) + {g} = (l : Multiset α) + {y} :=
    ms_set hi y d
  have key : (((l.set i v).set j y : List α) : Multiset α) + ({v} + {g})
      = ((l.set i y : List α) : Multiset α) + ({v} + {g}) := by
    calc (((l.set i v).set j y : List α) : Multiset α) + ({v} + {g})
        = ((((l.set i v).set j y : List α) : Multiset α) + {v}) + {g} := by
          rw [add_assoc]
      _ = (((l.set i v : List α) : Multiset α) + {y}) + {g} := by rw [e1]
      _ = (((l.set i v : List α) : Multiset α) + {g}) + {y} := by
          rw [add_assoc, add_assoc, add_comm ({y} : Multiset α) {g}]
      _ = ((l : Multiset α) + {v}) + {y} := by rw [e2]
      _ = ((l : Multiset α) + {y}) + {v} := by
          rw [add_assoc, add_assoc, add_comm ({v} : Multiset α) {y}]
      _ = (((l.set i y : List α) : Multiset α) + {g}) + {v} := by rw [e3]
      _ = ((l.set i y : List α) : Multiset α) + ({v} + {g}) := by
          rw [add_assoc, add_comm ({g} : Multiset α) {v}]
  exact add_right_cancel key

/-! #### Multiset and length preservation of the sift loops -/

theorem upLoop_ms (x : α) (fuel : Nat) :
    ∀ (l : List α) (startpos pos : Nat), pos < l.length →
      (upLoop lt x fuel l startpos pos).1.length = l.length ∧
      (upLoop lt x fuel l startpos pos).2 ≤ pos ∧
      (upLoop lt x fuel l startpos pos).2 < l.length ∧
      ∀ y : α,
        (((upLoop lt x fuel l startpos pos).1.set (upLoop lt x fuel l startpos pos).2 y :
          List α) : Multiset α) = ((l.set pos y : List α) : Multiset α) := by
  induction fuel with
  | zero => exact fun l sp pos h => ⟨rfl, Nat.le_refl _, h, fun y => rfl⟩
  | succ n ih =>
    intro l sp pos h
    by_cases hgt : pos > sp
    · by_cases hlt : lt x (l.getD (parentIdx pos) default) = true
      · have hpp : parentIdx pos < pos := parentIdx_lt (by omega)
        have hred : upLoop lt x (n + 1) l sp pos
            = upLoop lt x n (l.set pos (l.getD (parentIdx pos) default)) sp (parentIdx pos) := by
          simp only [upLoop]
          rw [if_pos hgt, if_pos hlt]
        rw [hred]
        obtain ⟨ih1, ih2, ih3, ih4⟩ :=
          ih (l.set pos (l.getD (parentIdx pos) default)) sp (parentIdx pos)
            (by rw [List.length_set]; omega)
        refine ⟨by rw [ih1, List.length_set], by omega, ?_, fun y => ?_⟩
        · rw [List.length_set] at ih3; exact ih3
        · rw [ih4 y, ms_set_move (by omega) h (by omega)]
      · have hred : upLoop lt x (n + 1) l sp pos = (l, pos) := by
          simp only [upLoop]
          rw [if_pos hgt, if_neg hlt]
        rw [hred]
        exact ⟨rfl, Nat.le_refl _, h, fun y => rfl⟩
    · have hred : upLoop lt x (n + 1) l sp pos = (l, pos) := by
        simp only [upLoop]
        rw [if_neg hgt]
      rw [hred]
      exact ⟨rfl, Nat.le_refl _, h, fun y => rfl⟩

theorem downLoop_ms (fuel : Nat) :
    ∀ (l : List α) (pos : Nat), pos < l.length →
      (downLoop lt fuel l pos).1.length = l.length ∧
      pos ≤ (downLoop lt fuel l pos).2 ∧
      (downLoop lt fuel l pos).2 < l.length ∧
      ∀ y : α,
        (((downLoop lt fuel l pos).1.set (downLoop lt fuel l pos).2 y :
          List α) : Multiset α) = ((l.set pos y : List α) : Multiset α) := by
  induction fuel with
  | zero => exact fun l pos h => ⟨rfl, Nat.le_refl _, h, fun y => rfl⟩
  | succ n ih =>
    intro l pos h
    by_cases hch : 2 * pos + 1 < l.length
    · set cp : Nat :=
        if (2 * pos + 1 + 1 < l.length : Bool)
            && !(lt (l.getD (2 * pos + 1) default) (l.getD (2 * pos + 1 + 1) default)) then
          2 * pos + 1 + 1
        else 2 * pos + 1 with hcp
      have hcpb : cp = 2 * pos + 1 + 1 ∨ cp = 2 * pos + 1 := by
        rw [hcp]; split_ifs <;> simp
      have hcplt : cp < l.length := by
        rw [hcp]; split_ifs with hb
        · simp only [Bool.and_eq_true, decide_eq_true_eq] at hb
          exact hb.1
        · exact hch
      have hposcp : pos < cp := by omega
      have hred : downLoop lt (n + 1) l pos
          = downLoop lt n (l.set pos (l.getD cp default)) cp := by
        simp only [downLoop]
        rw [if_pos hch]
      rw [hred]
      obtain ⟨ih1, ih2, ih3, ih4⟩ :=
        ih (l.set pos (l.getD cp default)) cp (by rw [List.length_set]; exact hcplt)
      refine ⟨by rw [ih1, List.length_set], by omega, ?_, fun y => ?_⟩
      · rw [List.length_set] at ih3; exact ih3
      · rw [ih4 y, ms_set_move (by omega) h hcplt]
    · have hred : downLoop lt (n + 1) l pos = (l, pos) := by
        simp only [downLoop]
        rw [if_neg hch]
      rw [hred]
      exact ⟨rfl, Nat.le_refl _, h, fun y => rfl⟩

theorem siftdownPy_ms {l : List α} {startpos pos : Nat} (h : pos < l.length) :
    (siftdownPy lt l startpos pos).length = l.length ∧
    ((siftdownPy lt l startpos pos : List α) : Multiset α) = (l : Multiset α) := by
  obtain ⟨h1, _, _, h4⟩ := upLoop_ms lt (l.getD pos default) pos l startpos pos h
  unfold siftdownPy
  constructor
  · rw [List.length_set, h1]
  · rw [h4 (l.getD pos default), set_getD_self]

theorem siftupPy_ms {l : List α} {pos : Nat} (h : pos < l.length) :
    (siftupPy lt l pos).length = l.length ∧
    ((siftupPy lt l pos : List α) : Multiset α) = (l : Multiset α) := by
  obtain ⟨d1, d2, d3, d4⟩ := downLoop_ms lt l.length l pos h
  set x : α := l.getD pos default with hx
  set r := downLoop lt l.length l pos with hr
  have hM : (r.1.set r.2 x).length = l.length := by rw [List.length_set, d1]
  have hr2M : r.2 < (r.1.set r.2 x).length := by rw [hM]; exact d3
  obtain ⟨u1, u2, u3, u4⟩ := upLoop_ms lt ((r.1.set r.2 x).getD r.2 default) r.2
    (r.1.set r.2 x) pos r.2 hr2M
  have hget : (r.1.set r.2 x).getD r.2 default = x := by
    rw [getD_set_self]
    rw [d1]; exact d3
  unfold siftupPy siftdownPy
  rw [← hr, ← hx]
  constructor
  · rw [List.length_set, u1, hM]
  · rw [u4, hget, List.set_set, d4 x, hx, set_getD_self]

theorem heappushPy_ms (l : List α) (a : α) :
    (heappushPy lt l a).length = l.length + 1 ∧
    ((heappushPy lt l a : List α) : Multiset α) = (l : Multiset α) + {a} := by
  have hlen : l.length < (l ++ [a]).length := by simp
  obtain ⟨h1, h2⟩ := @siftdownPy_ms _ _ lt (l ++ [a]) 0 l.length hlen
  unfold heappushPy
  constructor
  · rw [h1]; simp
  · rw [h2, ← Multiset.coe_add]; rfl

theorem heapifyAux_ms (k : Nat) :
    ∀ (l : List α), k ≤ l.length →
      (heapifyAux lt k l).length = l.length ∧
      ((heapifyAux lt k l : List α) : Multiset α) = (l : Multiset α) := by
  induction k with
  | zero => exact fun l _ => ⟨rfl, rfl⟩
  | succ n ih =>
    intro l hk
    have hn : n < l.length := by omega
    obtain ⟨s1, s2⟩ := siftupPy_ms lt hn
    have := ih (siftupPy lt l n) (by omega)
    unfold heapifyAux
    exact ⟨by rw [this.1, s1], by rw [this.2, s2]⟩

theorem heapifyPy_ms (l : List α) :
    (heapifyPy lt l).length = l.length ∧
    ((heapifyPy lt l : List α) : Multiset α) = (l : Multiset α) := by
  unfold heapifyPy
  exact heapifyAux_ms lt (l.length / 2) l (by omega)

theorem msiftLoop_len (size : Int) (temp : α) (fuel : Nat) :
    ∀ (l : List α) (idx : Nat), ((msiftLoop lt size temp fuel l idx).1).length = l.length := by
  induction fuel with
  | zero => exact fun l idx => rfl
  | succ n ih =>
    intro l idx
    simp only [msiftLoop]
    split_ifs <;> first | rfl | rw [ih, List.length_set]

theorem msiftDown_len (size : Int) (l : List α) (idx : Nat) :
    (msiftDown lt size l idx).length = l.length := by
  unfold msiftDown
  rw [List.length_set, msiftLoop_len]

/-! #### Restoration of the heap invariant by the sift loops -/

/-- Children of slot `p` start at slot `2p+1`. -/
theorem child_ge {c p : Nat} (hc : 0 < c) (hp : parentIdx c = p) : 2 * p + 1 ≤ c := by
  simp only [parentIdx] at hp; omega

/-- CPython `_siftdown` (classic sift-up) restores the heap invariant once the
carried item is written into the final hole, provided the pairs away from the
starting hole hold, the item is below the hole's children, and the hole's
parent is below the hole's children. -/
theorem upLoop_spec
    (hA : ∀ a b, lt a b = true → lt b a = false)
    (hT : ∀ a b c, lt a b = true → lt b c = true → lt a c = true)
    (hL : ∀ a b c, lt b a = false → lt c b = false → lt c a = false)
    (x : α) (fuel : Nat) :
    ∀ (l : List α) (pos : Nat), pos < l.length → pos ≤ fuel →
      okExcept lt l pos →
      (∀ c, c < l.length → parentIdx c = pos → 0 < c → lt (l.getD c default) x = false) →
      (∀ c, c < l.length → parentIdx c = pos → 0 < c → 0 < pos →
        lt (l.getD c default) (l.getD (parentIdx pos) default) = false) →
      heapOk lt ((upLoop lt x fuel l 0 pos).1.set (upLoop lt x fuel l 0 pos).2 x) := by
  induction fuel with
  | zero =>
    intro l pos hpos hle hex h2 _h3
    have hz : pos = 0 := by omega
    subst hz
    have hred : upLoop lt x 0 l 0 0 = (l, 0) := rfl
    rw [hred]
    exact heapOk_set_of lt hpos hex h2 (fun h0 => absurd h0 (by omega))
  | succ n ih =>
    intro l pos hpos hle hex h2 h3
    by_cases hgt : pos > 0
    · by_cases hlt : lt x (l.getD (parentIdx pos) default) = true
      · have hpp : parentIdx pos < pos := parentIdx_lt hgt
        have hred : upLoop lt x (n + 1) l 0 pos
            = upLoop lt x n (l.set pos (l.getD (parentIdx pos) default)) 0 (parentIdx pos) := by
          simp only [upLoop]
          rw [if_pos hgt, if_pos hlt]
        rw [hred]
        have hlen1 : (l.set pos (l.getD (parentIdx pos) default)).length = l.length :=
          List.length_set _ _ _
        -- pairs away from the new hole
        have hexA : okExcept lt (l.set pos (l.getD (parentIdx pos) default)) (parentIdx pos) := by
          intro c hc h0 hcpp hpcpp
          rw [hlen1] at hc
          by_cases hcpos : c = pos
          · exact absurd (hcpos ▸ rfl) hpcpp
          · by_cases hpcpos : parentIdx c = pos
            · have hcgt : pos < c := lt_of_lt_of_le (by omega) (child_ge h0 hpcpos)
              rw [getD_set_ne (by omega), hpcpos, getD_set_self hpos]
              exact h3 c hc hpcpos h0 hgt
            · rw [getD_set_ne (by omega), getD_set_ne (fun h => hpcpos h.symm)]
              exact hex c hc h0 hcpos hpcpos
        -- the carried item is below the new hole's children
        have h2A : ∀ c, c < (l.set pos (l.getD (parentIdx pos) default)).length →
            parentIdx c = parentIdx pos → 0 < c →
            lt ((l.set pos (l.getD (parentIdx pos) default)).getD c default) x = false := by
          intro c hc hpc h0
          rw [hlen1] at hc
          by_cases hcpos : c = pos
          · subst hcpos
            rw [getD_set_self hpos]
            exact hA _ _ hlt
          · rw [getD_set_ne (fun h => hcpos h.symm)]
            have hpair : lt (l.getD c default) (l.getD (parentIdx pos) default) = false := by
              have := hex c hc h0 hcpos (by omega)
              rwa [hpc] at this
            cases hcc : lt (l.getD c default) x with
            | false => rfl
            | true =>
              rw [hT _ _ _ hcc hlt] at hpair
              exact absurd hpair (by decide)
        -- the new hole's parent is below the new hole's children
        have h3A : ∀ c, c < (l.set pos (l.getD (parentIdx pos) default)).length →
            parentIdx c = parentIdx pos → 0 < c → 0 < parentIdx pos →
            lt ((l.set pos (l.getD (parentIdx pos) default)).getD c default)
              ((l.set pos (l.getD (parentIdx pos) default)).getD (parentIdx (parentIdx pos))
                default) = false := by
          intro c hc hpc h0 h0pp
          rw [hlen1] at hc
          have hppp : parentIdx (parentIdx pos) < parentIdx pos := parentIdx_lt h0pp
          have hppair : lt (l.getD (parentIdx pos) default)
              (l.getD (parentIdx (parentIdx pos)) default) = false :=
            hex (parentIdx pos) (by omega) h0pp (by omega) (by omega)
          rw [getD_set_ne (show pos ≠ parentIdx (parentIdx pos) by omega)]
          by_cases hcpos : c = pos
          · subst hcpos
            rw [getD_set_self hpos]
            exact hppair
          · rw [getD_set_ne (fun h => hcpos h.symm)]
            have hpair : lt (l.getD c default) (l.getD (parentIdx pos) default) = false := by
              have := hex c hc h0 hcpos (by omega)
              rwa [hpc] at this
            exact hL _ _ _ hppair hpair
        exact ih (l.set pos (l.getD (parentIdx pos) default)) (parentIdx pos)
          (by omega) (by omega) hexA h2A h3A
      · have hred : upLoop lt x (n + 1) l 0 pos = (l, pos) := by
          simp only [upLoop]
          rw [if_pos hgt, if_neg hlt]
        rw [hred]
        exact heapOk_set_of lt hpos hex h2
          (fun _ => by simpa using hlt)
    · have hred : upLoop lt x (n + 1) l 0 pos = (l, pos) := by
        simp only [upLoop]
        rw [if_neg hgt]
      rw [hred]
      exact heapOk_set_of lt hpos hex h2 (fun h0 => absurd h0 hgt)

/-- CPython `_siftup`'s descent loop carries the hole to a leaf along the
minimal-child path; pairs away from the hole keep holding, and the final hole
is a leaf. -/
theorem downLoop_spec
    (hA : ∀ a b, lt a b = true → lt b a = false)
    (fuel : Nat) :
    ∀ (l : List α) (pos : Nat), pos < l.length → l.length ≤ fuel + pos →
      okExcept lt l pos →
      (∀ c, c < l.length → parentIdx c = pos → 0 < c → 0 < pos →
        lt (l.getD c default) (l.getD (parentIdx pos) default) = false) →
      (downLoop lt fuel l pos).1.length = l.length ∧
      pos ≤ (downLoop lt fuel l pos).2 ∧
      (downLoop lt fuel l pos).2 < l.length ∧
      l.length ≤ 2 * (downLoop lt fuel l pos).2 + 1 ∧
      okExcept lt (downLoop lt fuel l pos).1 (downLoop lt fuel l pos).2 := by
  induction fuel with
  | zero =>
    intro l pos hpos hfuel _ _
    exact absurd hfuel (by omega)
  | succ n ih =>
    intro l pos hpos hfuel hex h3
    by_cases hch : 2 * pos + 1 < l.length
    · set cp : Nat :=
        if (2 * pos + 1 + 1 < l.length : Bool)
            && !(lt (l.getD (2 * pos + 1) default) (l.getD (2 * pos + 1 + 1) default)) then
          2 * pos + 1 + 1
        else 2 * pos + 1 with hcpdef
      have hcpb : cp = 2 * pos + 1 + 1 ∨ cp = 2 * pos + 1 := by
        rw [hcpdef]; split_ifs <;> simp
      have hcplt : cp < l.length := by
        rw [hcpdef]; split_ifs with hb
        · simp only [Bool.and_eq_true, decide_eq_true_eq] at hb
          exact hb.1
        · exact hch
      have hposcp : pos < cp := by omega
      have hpcp : parentIdx cp = pos := by
        simp only [parentIdx]; omega
      -- characterize the chosen child
      have hchar : (cp = 2 * pos + 1 + 1 ∧
            lt (l.getD (2 * pos + 1) default) (l.getD (2 * pos + 1 + 1) default) = false)
          ∨ (cp = 2 * pos + 1 ∧ (¬(2 * pos + 1 + 1 < l.length) ∨
            lt (l.getD (2 * pos + 1) default) (l.getD (2 * pos + 1 + 1) default) = true)) := by
        rw [hcpdef]
        split_ifs with hb
        · simp only [Bool.and_eq_true, Bool.not_eq_true', decide_eq_true_eq] at hb
          exact Or.inl ⟨rfl, hb.2⟩
        · refine Or.inr ⟨rfl, ?_⟩
          by_cases hr : 2 * pos + 1 + 1 < l.length
          · right
            cases hv : lt (l.getD (2 * pos + 1) default) (l.getD (2 * pos + 1 + 1) default)
            · exact absurd (by rw [hv]; simp [hr]) hb
            · rfl
          · exact Or.inl hr
      -- the chosen child is below the rejected sibling
      have hsel : ∀ oc, oc < l.length → parentIdx oc = pos → 0 < oc → oc ≠ cp →
          lt (l.getD oc default) (l.getD cp default) = false := by
        intro oc hoc hpoc h0oc hoccp
        have hocch : oc = 2 * pos + 1 ∨ oc = 2 * pos + 1 + 1 := by
          simp only [parentIdx] at hpoc; omega
        rcases hchar with ⟨hcp, hflt⟩ | ⟨hcp, hrest⟩
        · have hocl : oc = 2 * pos + 1 := by omega
          rw [hocl, hcp]
          exact hflt
        · have hocr : oc = 2 * pos + 1 + 1 := by omega
          rcases hrest with hno | hyes
          · exact absurd (hocr ▸ hoc) hno
          · rw [hocr, hcp]
            exact hA _ _ hyes
      have hred : downLoop lt (n + 1) l pos
          = downLoop lt n (l.set pos (l.getD cp default)) cp := by
        simp only [downLoop]
        rw [if_pos hch]
      rw [hred]
      have hlen1 : (l.set pos (l.getD cp default)).length = l.length := List.length_set _ _ _
      -- pairs away from the new hole
      have hexA : okExcept lt (l.set pos (l.getD cp default)) cp := by
        intro c hc h0 hccp hpccp
        rw [hlen1] at hc
        by_cases hcpos : c = pos
        · subst hcpos
          have h0pos : 0 < c := h0
          rw [getD_set_self hpos, getD_set_ne (show c ≠ parentIdx c from by
            have := parentIdx_lt h0pos; omega)]
          exact h3 cp hcplt hpcp (by omega) h0pos
        · by_cases hpcpos : parentIdx c = pos
          · have hcgt : pos < c := lt_of_lt_of_le (by omega) (child_ge h0 hpcpos)
            rw [getD_set_ne (by omega), hpcpos, getD_set_self hpos]
            exact hsel c hc hpcpos h0 hccp
          · rw [getD_set_ne (by omega), getD_set_ne (fun h => hpcpos h.symm)]
            exact hex c hc h0 hcpos hpcpos
      -- the new hole's parent (slot `pos`, now the chosen child) is below the
      -- new hole's children
      have h3A : ∀ c, c < (l.set pos (l.getD cp default)).length → parentIdx c = cp →
          0 < c → 0 < cp →
          lt ((l.set pos (l.getD cp default)).getD c default)
            ((l.set pos (l.getD cp default)).getD (parentIdx cp) default) = false := by
        intro c hc hpc h0 _h0cp
        rw [hlen1] at hc
        have hcgt : cp < c := lt_of_lt_of_le (by omega) (child_ge h0 hpc)
        rw [hpcp, getD_set_self hpos, getD_set_ne (by omega)]
        have := hex c hc h0 (by omega) (by omega)
        rwa [hpc] at this
      obtain ⟨r1, r2, r3, r4, r5⟩ := ih (l.set pos (l.getD cp default)) cp
        (by rw [hlen1]; exact hcplt) (by rw [hlen1]; omega) hexA h3A
      rw [hlen1] at r1 r3 r4
      exact ⟨r1, by omega, r3, r4, r5⟩
    · have hred : downLoop lt (n + 1) l pos = (l, pos) := by
        simp only [downLoop]
        rw [if_neg hch]
      rw [hred]
      exact ⟨rfl, Nat.le_refl _, hpos, by omega, hex⟩

/-- CPython `_siftup(heap, 0)` restores the full heap invariant when only the
root may violate it. -/
theorem siftupPy_spec0
    (hA : ∀ a b, lt a b = true → lt b a = false)
    (hT : ∀ a b c, lt a b = true → lt b c = true → lt a c = true)
    (hL : ∀ a b c, lt b a = false → lt c b = false → lt c a = false)
    {l : List α} (h0 : 0 < l.length) (hex : okExcept lt l 0) :
    heapOk lt (siftupPy lt l 0) := by
  obtain ⟨d1, d2, d3, dleaf, dok⟩ := downLoop_spec lt hA l.length l 0 h0 (by omega) hex
    (fun c hc hpc h0c h00 => absurd h00 (by omega))
  set x : α := l.getD 0 default with hx
  set r := downLoop lt l.length l 0 with hr
  have hr2 : r.2 < (r.1.set r.2 x).length := by
    rw [List.length_set, d1]; exact d3
  have hMex : okExcept lt (r.1.set r.2 x) r.2 := okExcept_set lt x dok
  have hget : (r.1.set r.2 x).getD r.2 default = x := by
    rw [getD_set_self]; rw [d1]; exact d3
  have h2V : ∀ c, c < (r.1.set r.2 x).length → parentIdx c = r.2 → 0 < c →
      lt ((r.1.set r.2 x).getD c default) x = false := by
    intro c hc hpc h0c
    rw [List.length_set, d1] at hc
    exact absurd (lt_of_le_of_lt (child_ge h0c hpc) hc) (by omega)
  have h3V : ∀ c, c < (r.1.set r.2 x).length → parentIdx c = r.2 → 0 < c → 0 < r.2 →
      lt ((r.1.set r.2 x).getD c default)
        ((r.1.set r.2 x).getD (parentIdx r.2) default) = false := by
    intro c hc hpc h0c _
    rw [List.length_set, d1] at hc
    exact absurd (lt_of_le_of_lt (child_ge h0c hpc) hc) (by omega)
  have := upLoop_spec lt hA hT hL x r.2 (r.1.set r.2 x) r.2 hr2 (Nat.le_refl _)
    hMex h2V h3V
  simp only [siftupPy, siftdownPy]
  rw [← hr, ← hx, hget]
  exact this

/-- In a heap, the root is minimal. -/
theorem heapOk_root_min
    (hA : ∀ a b, lt a b = true → lt b a = false)
    (hL : ∀ a b c, lt b a = false → lt c b = false → lt c a = false)
    {l : List α} (hh : heapOk lt l) :
    ∀ i, i < l.length → lt (l.getD i default) (l.getD 0 default) = false := by
  intro i
  induction i using Nat.strong_induction_on with
  | _ i ih =>
    intro hi
    rcases Nat.eq_zero_or_pos i with h0 | h0
    · subst h0
      cases hll : lt (l.getD 0 default) (l.getD 0 default)
      · rfl
      · have h2 := hA _ _ hll
        rw [hll] at h2
        exact h2
    · have hp := hh i hi h0
      have hpi : parentIdx i < i := parentIdx_lt h0
      exact hL _ _ _ (ih (parentIdx i) hpi (by omega)) hp

/-- Root minimality, membership form. -/
theorem heapOk_root_min_mem
    (hA : ∀ a b, lt a b = true → lt b a = false)
    (hL : ∀ a b c, lt b a = false → lt c b = false → lt c a = false)
    {l : List α} (hh : heapOk lt l) :
    ∀ x ∈ l, lt x (l.getD 0 default) = false := by
  intro x hx
  obtain ⟨i, hi, heq⟩ := List.mem_iff_getElem.1 hx
  have := heapOk_root_min lt hA hL hh i hi
  rwa [List.getD_eq_getElem _ _ hi, heq] at this

/-- Full functional correctness of CPython `heappop` on a heap: it returns the
root (a minimal element), removes exactly it from the multiset, shortens the
list by one, and preserves the heap invariant. -/
theorem heappopPy_spec
    (hA : ∀ a b, lt a b = true → lt b a = false)
    (hT : ∀ a b c, lt a b = true → lt b c = true → lt a c = true)
    (hL : ∀ a b c, lt b a = false → lt c b = false → lt c a = false)
    {l : List α} (hne : l ≠ []) (hh : heapOk lt l) :
    (heappopPy lt l).1 = some (l.getD 0 default) ∧
    (heappopPy lt l).2.length = l.length - 1 ∧
    heapOk lt (heappopPy lt l).2 ∧
    (((heappopPy lt l).2 : List α) : Multiset α) + {l.getD 0 default} = (l : Multiset α) := by
  have hemp : l.isEmpty = false := by
    cases l with
    | nil => exact absurd rfl hne
    | cons a t => rfl
  have hlpos : 0 < l.length := List.length_pos.2 hne
  by_cases hlen1 : l.length = 1
  · obtain ⟨a, ha⟩ := List.length_eq_one.1 hlen1
    subst ha
    have hred : heappopPy lt [a] = (some a, []) := rfl
    rw [hred]
    refine ⟨rfl, rfl, ?_, ?_⟩
    · intro c hc h0; simp at hc
    · simp
  · have hlen2 : 2 ≤ l.length := by omega
    have hrestlen : l.dropLast.length = l.length - 1 := List.length_dropLast l
    have hrestne : l.dropLast.isEmpty = false := by
      cases hld : l.dropLast with
      | nil => rw [hld] at hrestlen; simp at hrestlen; omega
      | cons a t => rfl
    have hred : heappopPy lt l
        = (some (l.dropLast.getD 0 default),
            siftupPy lt (l.dropLast.set 0 (l.getLastD default)) 0) := by
      unfold heappopPy
      rw [if_neg (by simp [hemp]), if_neg (by simp [hrestne])]
    have hget0 : l.dropLast.getD 0 default = l.getD 0 default :=
      dropLast_getD (by omega) default
    have hsetlen : (l.dropLast.set 0 (l.getLastD default)).length = l.length - 1 := by
      rw [List.length_set, hrestlen]
    have hex : okExcept lt (l.dropLast.set 0 (l.getLastD default)) 0 := by
      intro c hc h0 hc0 hpc0
      rw [hsetlen] at hc
      rw [getD_set_ne (fun h => hc0 h.symm), getD_set_ne (fun h => hpc0 h.symm),
        dropLast_getD (by omega) default,
        dropLast_getD (by have := parentIdx_lt h0; omega) default]
      exact hh c (by omega) h0
    obtain ⟨s1, s2⟩ := @siftupPy_ms _ _ lt (l.dropLast.set 0 (l.getLastD default)) 0
      (by rw [hsetlen]; omega)
    have hok : heapOk lt (siftupPy lt (l.dropLast.set 0 (l.getLastD default)) 0) :=
      siftupPy_spec0 lt hA hT hL (by rw [hsetlen]; omega) hex
    rw [hred]
    refine ⟨by rw [hget0], by rw [s1, hsetlen], hok, ?_⟩
    have e1 : ((l.dropLast.set 0 (l.getLastD default) : List α) : Multiset α)
        + {l.dropLast.getD 0 default}
        = ((l.dropLast : List α) : Multiset α) + {l.getLastD default} :=
      ms_set (by omega) _ default
    have e2 : ((l.dropLast : List α) : Multiset α) + {l.getLastD default} = (l : Multiset α) := by
      have h3 := dropLast_concat_getLastD hne default
      calc ((l.dropLast : List α) : Multiset α) + {l.getLastD default}
          = ((l.dropLast ++ [l.getLastD default] : List α) : Multiset α) := by
            rw [← Multiset.coe_add]; rfl
        _ = (l : Multiset α) := by rw [h3]
    rw [s2, ← hget0, e1, e2]

end HeapLemmas

/-! ### The MinHeap state and its operations -/

/-- The state of one `MinHeap` instance.

`arena` models the Python object store for this heap's nodes: a node object is
identified by its index in the arena (its id) and can be mutated in place (by
`update_priority`).  `heap` is `self.heap`: Python lists hold object
references, so it is a list of node ids; `snapshots` (`self._snapshots`)
likewise holds lists of ids, which makes the sharing between a snapshot copy
`self.heap[:]` and the live list observable, exactly as in Python.  `size`,
`insertion_count` (`self._insertion_count`) and `key_func` mirror the
remaining fields; `size` is a Python `int`, hence `Int`. -/
@[ext]
structure MinHeap (V : Type) where
  arena : List (HeapNode V)
  heap : List Nat
  size : Int
  insertion_count : Nat
  key_func : Option (V → Int)
  snapshots : List (List Nat)

/-- `MinHeap.__init__` with `items=None`. -/
def emptyHeap (V : Type) (key : Option (V → Int)) : MinHeap V :=
  ⟨[], [], 0, 0, key, []⟩

/-- Dereference a node id in the object store. -/
def getNodeD {V : Type} [Inhabited V] (arena : List (HeapNode V)) (id : Nat) : HeapNode V :=
  arena.getD id default

/-- Python's `<` on the node objects referenced by two ids (dispatches to
`HeapNode.__lt__`). -/
def ltId {V : Type} [Inhabited V] (arena : List (HeapNode V)) (i j : Nat) : Bool :=
  HeapNode.ltB (getNodeD arena i) (getNodeD arena j)

section Ops

variable {V : Type} [Inhabited V] [DecidableEq V]

/-- `push_with_priority`: create the node, bump `_insertion_count`,
`heapq.heappush(self.heap, node)`, bump `size`. -/
def pushWithPriority (s : MinHeap V) (value : V) (priority : Int) : MinHeap V :=
  let node : HeapNode V := ⟨priority, value, s.insertion_count⟩
  let arena1 := s.arena ++ [node]
  { s with
    arena := arena1
    insertion_count := s.insertion_count + 1
    heap := heappushPy (ltId arena1) s.heap s.arena.length
    size := s.size + 1 }

/-- The `heapq.heappop(self.heap)` part of `pop`, returning the popped node;
`pop` projects `.value` from it. -/
def popNode (s : MinHeap V) : Option (HeapNode V) × MinHeap V :=
  if s.heap.isEmpty then (none, s)
  else
    let r := heappopPy (ltId s.arena) s.heap
    (r.1.map (getNodeD s.arena), { s with size := s.size - 1, heap := r.2 })

/-- `pop`: `None` on an empty backing list, otherwise decrement `size` and
return `heapq.heappop(self.heap).value`. -/
def pop (s : MinHeap V) : Option V × MinHeap V :=
  let r := popNode s
  (r.1.map HeapNode.value, r.2)

/-- `peek`: `None` on an empty backing list, else `(priority, value)` of
`self.heap[0]`, without mutation. -/
def peek (s : MinHeap V) : Option (Int × V) :=
  if s.heap.isEmpty then none
  else
    let node := getNodeD s.arena (s.heap.getD 0 0)
    some (node.priority, node.value)

/-- `bulk_push`: push every item (with the priority `push` computes for it —
`key_func` applied, or the value itself when no key function is configured;
the items here already carry that priority), then one `_heapify()`. -/
def bulkPush (s : MinHeap V) (items : List (Int × V)) : MinHeap V :=
  let s1 := items.foldl (fun t pv => pushWithPriority t pv.2 pv.1) s
  { s1 with heap := heapifyPy (ltId s1.arena) s1.heap }

/-- `merge`: `self.heap.extend(other.heap); self.size += other.size;
self._heapify()`.  Each Lean heap state carries its own arena, so the absorbed
node objects are appended to `self`'s arena and the absorbed ids shifted
accordingly; every `HeapNode` (priority, value, insertion_count) is taken over
verbatim.  The method never writes to `other`, so `other` is returned
unchanged as the second component. -/
def mergeStates (s other : MinHeap V) : MinHeap V × MinHeap V :=
  let arena1 := s.arena ++ other.arena
  let newHeap := s.heap ++ other.heap.map (fun i => i + s.arena.length)
  ({ s with
      arena := arena1
      heap := heapifyPy (ltId arena1) newHeap
      size := s.size + other.size }, other)

/-- `is_empty`: `self.size == 0`. -/
def isEmptyH (s : MinHeap V) : Bool := decide (s.size = 0)

/-- `drain`: `while not self.is_empty(): yield self.pop()`, fully consumed.
The fuel is the backing list's length: whenever `size == len(heap)` (which the
operations maintain) the loop performs exactly `size` pops.  In a state with
`size ≠ 0` but an empty backing list the Python generator would loop forever
yielding `None`; the embedding stops instead (unreachable under consistency).
The popped nodes are returned; the generator yields their values. -/
def drainAux : Nat → MinHeap V → List (HeapNode V) × MinHeap V
  | 0, s => ([], s)
  | fuel + 1, s =>
    if s.size = 0 then ([], s)
    else
      match popNode s with
      | (none, s1) => ([], s1)
      | (some n, s1) =>
        let r := drainAux fuel s1
        (n :: r.1, r.2)

def drain (s : MinHeap V) : List V × MinHeap V :=
  let r := drainAux s.heap.length s
  (r.1.map HeapNode.value, r.2)

/-- Entering a `snapshot()` scope: `self._snapshots.append(self.heap[:])`.
The copy is shallow — a fresh list of the same node ids. -/
def snapEnter (s : MinHeap V) : MinHeap V :=
  { s with snapshots := s.snapshots ++ [s.heap] }

/-- Leaving a `snapshot()` scope (the `finally` block): `self.heap =
self._snapshots.pop(); self.size = len(self.heap)`. -/
def snapExit (s : MinHeap V) : MinHeap V :=
  { s with
    heap := s.snapshots.getLastD []
    snapshots := s.snapshots.dropLast
    size := ((s.snapshots.getLastD []).length : Int) }

/-- The list comprehension `[self.pop() for _ in range(m)]`. -/
def popN : MinHeap V → Nat → List (Option V) × MinHeap V
  | s, 0 => ([], s)
  | s, m + 1 =>
    let r := pop s
    let rest := popN r.2 m
    (r.1 :: rest.1, rest.2)

/-- `k_smallest(k)`: inside a snapshot scope, `min(k, self.size)` pops. -/
def kSmallest (s : MinHeap V) (k : Int) : List (Option V) × MinHeap V :=
  let s0 := snapEnter s
  let r := popN s0 (min k s0.size).toNat
  (r.1, snapExit r.2)

/-- The scan `for i, node in enumerate(self.heap): if node.value == value:`
— index of the first live node whose value equals `value`. -/
def findValueIdx (arena : List (HeapNode V)) (value : V) : List Nat → Nat → Option Nat
  | [], _ => none
  | id :: rest, i =>
    if (getNodeD arena id).value = value then some i
    else findValueIdx arena value rest (i + 1)

/-- `update_priority(value, new_priority)`: linear scan of `self.heap` for the
first node whose value equals `value`; overwrite that node's priority in
place; `_sift_up(i)` if the priority decreased, else `_sift_down(i)`.  The
`<=` inside `_sift_up` raises `TypeError` (see `nodeLeExc`); the exception
propagates with the priority already overwritten. -/
def updatePriority (s : MinHeap V) (value : V) (newPriority : Int) :
    MinHeap V × Except PyError Bool :=
  match findValueIdx s.arena value s.heap 0 with
  | none => (s, .ok false)
  | some i =>
    let nid := s.heap.getD i 0
    let node := getNodeD s.arena nid
    let oldPriority := node.priority
    let arena1 := s.arena.set nid { node with priority := newPriority }
    if newPriority < oldPriority then
      match msiftUp (fun a b => nodeLeExc (getNodeD arena1 a) (getNodeD arena1 b)) s.heap i with
      | .error e => ({ s with arena := arena1 }, .error e)
      | .ok h1 => ({ s with arena := arena1, heap := h1 }, .ok true)
    else
      ({ s with arena := arena1, heap := msiftDown (ltId arena1) s.size s.heap i }, .ok true)

/-- `remove(value)`: linear scan for the first matching node; move the last
element into its slot, pop the backing list, decrement `size`, and
`_sift_down(i)` if `i` is still in range.  (No sift-up is attempted.) -/
def removeValue (s : MinHeap V) (value : V) : MinHeap V × Bool :=
  match findValueIdx s.arena value s.heap 0 with
  | none => (s, false)
  | some i =>
    let h1 := s.heap.set i (s.heap.getLastD 0)
    let h2 := h1.dropLast
    let size1 := s.size - 1
    let h3 := if i < h2.length then msiftDown (ltId s.arena) size1 h2 i else h2
    ({ s with heap := h3, size := size1 }, true)

/-- `__len__`: the tracked size. -/
def lenH (s : MinHeap V) : Int := s.size

/-! #### Observables and invariants -/

/-- The live node objects, in storage order. -/
def liveNodes (s : MinHeap V) : List (HeapNode V) := s.heap.map (getNodeD s.arena)

/-- The externally observable heap state: the multiset of (priority, value)
pairs of the live nodes, together with the tracked size. -/
def observe (s : MinHeap V) : Multiset (Int × V) × Int :=
  (((liveNodes s).map (fun n => (n.priority, n.value)) : List (Int × V)), s.size)

/-- Every live id points into the arena. -/
def WF (s : MinHeap V) : Prop := ∀ id ∈ s.heap, id < s.arena.length

/-- The heap invariant on the live storage, under the node total order. -/
def HeapOkS (s : MinHeap V) : Prop := heapOk (ltId s.arena) s.heap

/-- The tracked size agrees with the backing list's length. -/
def Consistent (s : MinHeap V) : Prop := s.size = (s.heap.length : Int)

instance (s : MinHeap V) : Decidable (WF s) := by unfold WF; infer_instance

instance (s : MinHeap V) : Decidable (HeapOkS s) := by unfold HeapOkS heapOk; infer_instance

instance (s : MinHeap V) : Decidable (Consistent s) := by unfold Consistent; infer_instance

end Ops

/-! ### Client programs against one heap instance

A `Prog` is a straight-line client program: the public mutating calls, a
`scopeP inner rest` block (`with heap.snapshot(): inner`, then `rest`), and
`raiseP` (caller code raising an exception inside the current block; it
propagates outward, running every enclosing scope's `finally`). -/

inductive Prog (V : Type) where
  | nil
  | pushP (priority : Int) (value : V) (rest : Prog V)
  | popP (rest : Prog V)
  | removeP (value : V) (rest : Prog V)
  | updateP (value : V) (priority : Int) (rest : Prog V)
  | bulkP (items : List (Int × V)) (rest : Prog V)
  | mergeP (nodes : List (HeapNode V)) (rest : Prog V)
  | drainP (rest : Prog V)
  | scopeP (inner : Prog V) (rest : Prog V)
  | raiseP (rest : Prog V)

/-- Successful-operation counters: pushes (bulk elements included), merge
absorptions, pops (drain extractions included), removes. -/
structure Counts where
  pushes : Nat
  absorbed : Nat
  pops : Nat
  removes : Nat
deriving DecidableEq, Repr

def Counts.add (a b : Counts) : Counts :=
  ⟨a.pushes + b.pushes, a.absorbed + b.absorbed, a.pops + b.pops, a.removes + b.removes⟩

section Run

variable {V : Type} [Inhabited V] [DecidableEq V]

/-- A consistent `other` heap whose node objects are exactly `nodes` (as such
a heap's own push sequence would have built them). -/
def heapOfNodes (nodes : List (HeapNode V)) : MinHeap V :=
  ⟨nodes, List.range nodes.length, (nodes.length : Int), nodes.length, none, []⟩

/-- Run a program: final state, whether it finished without an exception, and
the success counters.  An exception aborts the remaining statements of every
block, but each enclosing scope's `finally` still restores its snapshot. -/
def run : MinHeap V → Prog V → MinHeap V × Bool × Counts
  | s, .nil => (s, true, ⟨0, 0, 0, 0⟩)
  | s, .pushP p v rest =>
    let r := run (pushWithPriority s v p) rest
    (r.1, r.2.1, Counts.add ⟨1, 0, 0, 0⟩ r.2.2)
  | s, .popP rest =>
    let pr := pop s
    let r := run pr.2 rest
    (r.1, r.2.1, Counts.add ⟨0, 0, if pr.1.isSome then 1 else 0, 0⟩ r.2.2)
  | s, .removeP v rest =>
    let rr := removeValue s v
    let r := run rr.1 rest
    (r.1, r.2.1, Counts.add ⟨0, 0, 0, if rr.2 then 1 else 0⟩ r.2.2)
  | s, .updateP v p rest =>
    let ur := updatePriority s v p
    match ur.2 with
    | .error _ => (ur.1, false, ⟨0, 0, 0, 0⟩)
    | .ok _ =>
      let r := run ur.1 rest
      (r.1, r.2.1, r.2.2)
  | s, .bulkP items rest =>
    let r := run (bulkPush s items) rest
    (r.1, r.2.1, Counts.add ⟨items.length, 0, 0, 0⟩ r.2.2)
  | s, .mergeP nodes rest =>
    let r := run (mergeStates s (heapOfNodes nodes)).1 rest
    (r.1, r.2.1, Counts.add ⟨0, nodes.length, 0, 0⟩ r.2.2)
  | s, .drainP rest =>
    let dr := drain s
    let r := run dr.2 rest
    (r.1, r.2.1, Counts.add ⟨0, 0, dr.1.length, 0⟩ r.2.2)
  | s, .scopeP inner rest =>
    let s1 := snapEnter s
    let ri := run s1 inner
    let s2 := snapExit ri.1
    if ri.2.1 then
      let r := run s2 rest
      (r.1, r.2.1, Counts.add ri.2.2 r.2.2)
    else (s2, false, ri.2.2)
  | s, .raiseP _ => (s, false, ⟨0, 0, 0, 0⟩)

/-- `true` iff the program contains no snapshot scope. -/
def scopeFreeB : Prog V → Bool
  | .nil => true
  | .pushP _ _ r => scopeFreeB r
  | .popP r => scopeFreeB r
  | .removeP _ r => scopeFreeB r
  | .updateP _ _ r => scopeFreeB r
  | .bulkP _ r => scopeFreeB r
  | .mergeP _ r => scopeFreeB r
  | .drainP r => scopeFreeB r
  | .scopeP _ _ => false
  | .raiseP r => scopeFreeB r

/-- `true` iff the program contains no merge. -/
def mergeFreeB : Prog V → Bool
  | .nil => true
  | .pushP _ _ r => mergeFreeB r
  | .popP r => mergeFreeB r
  | .removeP _ r => mergeFreeB r
  | .updateP _ _ r => mergeFreeB r
  | .bulkP _ r => mergeFreeB r
  | .mergeP _ _ => false
  | .drainP r => mergeFreeB r
  | .scopeP inner r => mergeFreeB inner && mergeFreeB r
  | .raiseP r => mergeFreeB r

end Run

/-! ### Construction (`__init__` / `_build_from_items`) for `MinHeap[int]`

The runtime shapes an element of `items` can take, for a heap with no `key`
function.  `num n` is an `int`/`float`: `isinstance` passes, `self.push(item)`
runs, and with `key_func is None` the value itself becomes the priority.
`pair p v` is a two-element sequence that unpacks as `(priority, value)`.
`rawNotIterable` is a raw non-sequence value (e.g. `None` or `object()`):
`priority, value = item` raises `TypeError`.  `rawWrongArity` is a sequence
that does not unpack into exactly two parts (e.g. the string `"abc"` or
`[1, 2, 3]`): unpacking raises `ValueError`.  (A two-element non-numeric
sequence, e.g. a 2-character string, would unpack as a (priority, value) pair
rather than fail; no claim concerns that case.) -/
inductive InitItem where
  | num (n : Int)
  | pair (p : Int) (v : Int)
  | rawNotIterable
  | rawWrongArity
deriving DecidableEq, Repr

/-- `push(value)` for an `Int`-valued heap: priority from `key_func` if
configured, else the value itself. -/
def pushInt (s : MinHeap Int) (v : Int) : MinHeap Int :=
  pushWithPriority s v (match s.key_func with | some k => k v | none => v)

/-- One iteration of the `for item in items` loop in `_build_from_items`. -/
def buildStep (s : MinHeap Int) : InitItem → Except PyError (MinHeap Int)
  | .num n => .ok (pushInt s n)
  | .pair p v => .ok (pushWithPriority s v p)
  | .rawNotIterable => .error .typeError
  | .rawWrongArity => .error .valueError

def buildFromItems (s : MinHeap Int) : List InitItem → Except PyError (MinHeap Int)
  | [] => .ok s
  | it :: rest =>
    match buildStep s it with
    | .error e => .error e
    | .ok s1 => buildFromItems s1 rest

/-- `MinHeap.__init__(items, key)` for `V = int`: build only when `items` is
truthy (non-empty). -/
def minHeapNew (items : List InitItem) (key : Option (Int → Int)) :
    Except PyError (MinHeap Int) :=
  if items.isEmpty then .ok (emptyHeap Int key)
  else buildFromItems (emptyHeap Int key) items

/-! ### State-level lemmas -/

section StateLemmas

variable {V : Type} [Inhabited V] [DecidableEq V]

theorem ltId_asymm (arena : List (HeapNode V)) :
    ∀ a b, ltId arena a b = true → ltId arena b a = false :=
  fun _ _ h => ltB_asymm _ _ h

theorem ltId_trans (arena : List (HeapNode V)) :
    ∀ a b c, ltId arena a b = true → ltId arena b c = true → ltId arena a c = true :=
  fun _ _ _ h1 h2 => ltB_trans _ _ _ h1 h2

theorem ltId_le_trans (arena : List (HeapNode V)) :
    ∀ a b c, ltId arena b a = false → ltId arena c b = false → ltId arena c a = false :=
  fun _ _ _ h1 h2 => ltB_le_trans _ _ _ h1 h2

/-- A successful scan returns an in-range index whose node matches. -/
theorem findValueIdx_spec (arena : List (HeapNode V)) (value : V) :
    ∀ (l : List Nat) (st i : Nat), findValueIdx arena value l st = some i →
      st ≤ i ∧ i - st < l.length ∧
      (getNodeD arena (l.getD (i - st) 0)).value = value := by
  intro l
  induction l with
  | nil => intro st i h; simp [findValueIdx] at h
  | cons id rest ih =>
    intro st i h
    by_cases hv : (getNodeD arena id).value = value
    · rw [findValueIdx, if_pos hv] at h
      cases h
      refine ⟨Nat.le_refl _, by simp, ?_⟩
      simpa using hv
    · rw [findValueIdx, if_neg hv] at h
      obtain ⟨ih1, ih2, ih3⟩ := ih (st + 1) i h
      have hgt : st < i := by omega
      refine ⟨by omega, by simp; omega, ?_⟩
      have : i - st = (i - (st + 1)) + 1 := by omega
      rw [this]
      exact ih3

/-- `heappop` on a non-empty list: some element comes back, the length drops
by one, and the multiset loses exactly that element (no order assumptions). -/
theorem heappopPy_len {α : Type} [Inhabited α] (lt : α → α → Bool) {l : List α}
    (hne : l ≠ []) :
    ∃ a, (heappopPy lt l).1 = some a ∧
      (heappopPy lt l).2.length = l.length - 1 ∧
      (((heappopPy lt l).2 : List α) : Multiset α) + {a} = (l : Multiset α) := by
  have hemp : l.isEmpty = false := by
    cases l with
    | nil => exact absurd rfl hne
    | cons a t => rfl
  have hlpos : 0 < l.length := List.length_pos.2 hne
  by_cases hlen1 : l.length = 1
  · obtain ⟨a, ha⟩ := List.length_eq_one.1 hlen1
    subst ha
    have hred : heappopPy lt [a] = (some a, []) := rfl
    exact ⟨a, by rw [hred], by rw [hred]; simp, by rw [hred]; simp⟩
  · have hrestlen : l.dropLast.length = l.length - 1 := List.length_dropLast l
    have hrestne : l.dropLast.isEmpty = false := by
      cases hld : l.dropLast with
      | nil => rw [hld] at hrestlen; simp at hrestlen; omega
      | cons a t => rfl
    have hred : heappopPy lt l
        = (some (l.dropLast.getD 0 default),
            siftupPy lt (l.dropLast.set 0 (l.getLastD default)) 0) := by
      unfold heappopPy
      rw [if_neg (by simp [hemp]), if_neg (by simp [hrestne])]
    obtain ⟨s1, s2⟩ := @siftupPy_ms _ _ lt (l.dropLast.set 0 (l.getLastD default)) 0
      (by rw [List.length_set]; omega)
    refine ⟨l.dropLast.getD 0 default, by rw [hred], ?_, ?_⟩
    · rw [hred, s1, List.length_set, hrestlen]
    · rw [hred]
      have e1 : ((l.dropLast.set 0 (l.getLastD default) : List α) : Multiset α)
          + {l.dropLast.getD 0 default}
          = ((l.dropLast : List α) : Multiset α) + {l.getLastD default} :=
        ms_set (by omega) _ default
      have e2 : ((l.dropLast : List α) : Multiset α) + {l.getLastD default}
          = (l : Multiset α) := by
        have h3 := dropLast_concat_getLastD hne default
        calc ((l.dropLast : List α) : Multiset α) + {l.getLastD default}
            = ((l.dropLast ++ [l.getLastD default] : List α) : Multiset α) := by
              rw [← Multiset.coe_add]; rfl
          _ = (l : Multiset α) := by rw [h3]
      rw [s2, e1, e2]

/-- When the comparison always raises (as `<=` on `HeapNode` does),
`_sift_up(0)` is a no-op write and `_sift_up(idx)` for `idx > 0` raises. -/
theorem msiftUp_alwaysErr {α : Type} [Inhabited α] (le : α → α → Except PyError Bool)
    (hle : ∀ a b, le a b = .error .typeError) (heap : List α) (idx : Nat) :
    (idx = 0 → msiftUp le heap idx = .ok (heap.set 0 (heap.getD 0 default))) ∧
    (0 < idx → msiftUp le heap idx = .error .typeError) := by
  constructor
  · intro h0
    subst h0
    rfl
  · intro hpos
    obtain ⟨f, hf⟩ : ∃ f, idx = f + 1 := ⟨idx - 1, by omega⟩
    subst hf
    have hloop : usiftLoop le (heap.getD (f + 1) default) (f + 1) heap (f + 1)
        = .error .typeError := by
      simp [usiftLoop, hle]
    have hdo : msiftUp le heap (f + 1)
        = (fun r => r.1.set r.2 (heap.getD (f + 1) default)) <$>
            usiftLoop le (heap.getD (f + 1) default) (f + 1) heap (f + 1) := rfl
    rw [hdo, hloop]
    rfl

/-- Transport an id-level pop multiset identity to node level. -/
theorem ms_map_nodes (arena : List (HeapNode V)) {h1 h2 : List Nat} {root : Nat}
    (h : (h2 : Multiset Nat) + {root} = (h1 : Multiset Nat)) :
    ((h2.map (getNodeD arena) : List (HeapNode V)) : Multiset (HeapNode V))
      + {getNodeD arena root}
      = ((h1.map (getNodeD arena) : List (HeapNode V)) : Multiset (HeapNode V)) := by
  have := congrArg (Multiset.map (getNodeD arena)) h
  simpa [Multiset.map_coe] using this

/-- Functional correctness of `popNode` on a non-empty well-formed heap:
the root node is returned, it is minimal, the backing list loses exactly the
root id, and the invariant persists.  All other fields are untouched. -/
theorem popNode_spec {s : MinHeap V} (hne : s.heap ≠ []) (hwf : WF s) (hh : HeapOkS s) :
    popNode s = (some (getNodeD s.arena (s.heap.getD 0 default)),
      { s with size := s.size - 1, heap := (heappopPy (ltId s.arena) s.heap).2 }) ∧
    (heappopPy (ltId s.arena) s.heap).2.length = s.heap.length - 1 ∧
    heapOk (ltId s.arena) (heappopPy (ltId s.arena) s.heap).2 ∧
    (((heappopPy (ltId s.arena) s.heap).2 : List Nat) : Multiset Nat)
      + {s.heap.getD 0 default} = (s.heap : Multiset Nat) ∧
    (∀ id ∈ s.heap, ltId s.arena id (s.heap.getD 0 default) = false) := by
  obtain ⟨p1, p2, p3, p4⟩ := heappopPy_spec (ltId s.arena) (ltId_asymm s.arena)
    (ltId_trans s.arena) (ltId_le_trans s.arena) hne hh
  have hemp : s.heap.isEmpty = false := by
    cases hl : s.heap with
    | nil => exact absurd hl hne
    | cons a t => rfl
  have hred : popNode s = (some (getNodeD s.arena (s.heap.getD 0 default)),
      { s with size := s.size - 1, heap := (heappopPy (ltId s.arena) s.heap).2 }) := by
    unfold popNode
    rw [if_neg (by simp [hemp])]
    simp only [p1, Option.map_some']
  exact ⟨hred, p2, p3, p4,
    heapOk_root_min_mem (ltId s.arena) (ltId_asymm s.arena) (ltId_le_trans s.arena) hh⟩

/-- `popNode` on a non-empty list always succeeds, drops the length by one and
removes exactly the returned node's id — no order assumptions. -/
theorem popNode_some {s : MinHeap V} (hne : s.heap ≠ []) :
    ∃ a : Nat, popNode s = (some (getNodeD s.arena a),
      { s with size := s.size - 1, heap := (heappopPy (ltId s.arena) s.heap).2 }) ∧
    (heappopPy (ltId s.arena) s.heap).2.length = s.heap.length - 1 ∧
    (((heappopPy (ltId s.arena) s.heap).2 : List Nat) : Multiset Nat) + {a}
      = (s.heap : Multiset Nat) := by
  obtain ⟨a, ha1, ha2, ha3⟩ := heappopPy_len (ltId s.arena) hne
  have hemp : s.heap.isEmpty = false := by
    cases hl : s.heap with
    | nil => exact absurd hl hne
    | cons x t => rfl
  refine ⟨a, ?_, ha2, ha3⟩
  unfold popNode
  rw [if_neg (by simp [hemp])]
  simp only [ha1, Option.map_some']

/-- Functional correctness of `m` successive pops on a valid heap: they all
succeed, the popped nodes come out sorted (non-strictly) in the node total
order, they are below everything that remains, exactly they are removed from
the live multiset, and only `heap`/`size` change. -/
theorem popN_spec (m : Nat) :
    ∀ s : MinHeap V, WF s → HeapOkS s → Consistent s → (m : Int) ≤ s.size →
      ∃ ns : List (HeapNode V),
        (popN s m).1 = ns.map (fun n => some n.value) ∧
        ns.length = m ∧
        List.Pairwise HeapNode.leB ns ∧
        ((ns : List (HeapNode V)) : Multiset (HeapNode V))
          + ((liveNodes (popN s m).2 : List (HeapNode V)) : Multiset (HeapNode V))
          = ((liveNodes s : List (HeapNode V)) : Multiset (HeapNode V)) ∧
        (∀ a ∈ ns, ∀ b ∈ liveNodes (popN s m).2, HeapNode.leB a b) ∧
        (popN s m).2.arena = s.arena ∧
        (popN s m).2.snapshots = s.snapshots ∧
        (popN s m).2.insertion_count = s.insertion_count ∧
        (popN s m).2.key_func = s.key_func ∧
        (popN s m).2.size = s.size - m ∧
        (popN s m).2.heap.length = s.heap.length - m ∧
        WF (popN s m).2 ∧ HeapOkS (popN s m).2 ∧ Consistent (popN s m).2 := by
  induction m with
  | zero =>
    intro s hwf hh hc _
    have hred : popN s 0 = ([], s) := rfl
    exact ⟨[], by rw [hred]; rfl, rfl, List.Pairwise.nil, by rw [hred]; simp, by rw [hred]; simp,
      by rw [hred], by rw [hred], by rw [hred], by rw [hred], by rw [hred]; simp,
      by rw [hred]; simp, by rw [hred]; exact hwf, by rw [hred]; exact hh,
      by rw [hred]; exact hc⟩
  | succ m ih =>
    intro s hwf hh hc hsz
    have hlen1 : 1 ≤ s.heap.length := by
      by_contra hcon
      have : s.heap.length = 0 := by omega
      rw [hc, this] at hsz
      simp at hsz
      omega
    have hne : s.heap ≠ [] := by
      intro h
      rw [h] at hlen1
      simp at hlen1
    obtain ⟨e1, e2, e3, e4, e5⟩ := popNode_spec hne hwf hh
    set minN : HeapNode V := getNodeD s.arena (s.heap.getD 0 default) with hminN
    set s1 : MinHeap V :=
      { s with size := s.size - 1, heap := (heappopPy (ltId s.arena) s.heap).2 } with hs1
    have hwf1 : WF s1 := by
      intro id hid
      apply hwf
      have : id ∈ ((s.heap : List Nat) : Multiset Nat) := by
        rw [← e4]
        exact Multiset.mem_add.2 (Or.inl (by simpa using hid))
      simpa using this
    have hh1 : HeapOkS s1 := e3
    have hc1 : Consistent s1 := by
      unfold Consistent at hc ⊢
      rw [hs1]
      simp only [e2]
      rw [hc]
      omega
    have hsz1 : (m : Int) ≤ s1.size := by
      rw [hs1]
      simp only []
      push_cast at hsz ⊢
      omega
    obtain ⟨ns', i1, i2, i3, i4, i5, i6, i7, i8, i9, i10, i11, i12, i13, i14⟩ :=
      ih s1 hwf1 hh1 hc1 hsz1
    -- the node-level multiset identity for the single pop
    have hms1 : ((liveNodes s1 : List (HeapNode V)) : Multiset (HeapNode V)) + {minN}
        = ((liveNodes s : List (HeapNode V)) : Multiset (HeapNode V)) := by
      have h0 := ms_map_nodes (V := V) s.arena e4
      rw [← hminN] at h0
      exact h0
    -- the returned node is below every node live in s1 (hence below all later)
    have hminAll : ∀ b ∈ liveNodes s1, HeapNode.leB minN b := by
      intro b hb
      obtain ⟨id, hid, rfl⟩ := List.mem_map.1 hb
      have hid' : id ∈ s.heap := by
        have : id ∈ ((s.heap : List Nat) : Multiset Nat) := by
          rw [← e4]
          exact Multiset.mem_add.2 (Or.inl (by simpa using hid))
        simpa using this
      exact e5 id hid'
    have hmem1 : ∀ b ∈ liveNodes (popN s1 m).2, b ∈ liveNodes s1 := by
      intro b hb
      have : b ∈ ((liveNodes s1 : List (HeapNode V)) : Multiset (HeapNode V)) := by
        rw [← i4]
        exact Multiset.mem_add.2 (Or.inr (by simpa using hb))
      simpa using this
    have hmem2 : ∀ b ∈ ns', b ∈ liveNodes s1 := by
      intro b hb
      have : b ∈ ((liveNodes s1 : List (HeapNode V)) : Multiset (HeapNode V)) := by
        rw [← i4]
        exact Multiset.mem_add.2 (Or.inl (by simpa using hb))
      simpa using this
    have hredN : popN s (m + 1) = ((pop s).1 :: (popN (pop s).2 m).1, (popN (pop s).2 m).2) :=
      rfl
    have hpops : pop s = (some minN.value, s1) := by
      unfold pop
      rw [e1]
      rfl
    refine ⟨minN :: ns', ?_, by simp [i2], ?_, ?_, ?_, ?_, ?_, ?_, ?_, ?_, ?_, ?_, ?_, ?_⟩
    · rw [hredN, hpops]
      simp [i1]
    · exact List.Pairwise.cons (fun a ha => hminAll a (hmem2 a ha)) i3
    · rw [hredN, hpops]
      have : ((minN :: ns' : List (HeapNode V)) : Multiset (HeapNode V))
          = {minN} + ((ns' : List (HeapNode V)) : Multiset (HeapNode V)) := by
        simp [Multiset.singleton_add]
      rw [this, add_assoc, i4, add_comm ({minN} : Multiset (HeapNode V)) _]
      exact hms1
    · intro a ha b hb
      rw [hredN, hpops] at hb
      rcases List.mem_cons.1 ha with rfl | ha'
      · exact hminAll b (hmem1 b hb)
      · exact i5 a ha' b hb
    · rw [hredN, hpops]; rw [i6]
    · rw [hredN, hpops]; rw [i7]
    · rw [hredN, hpops]; rw [i8]
    · rw [hredN, hpops]; rw [i9]
    · rw [hredN, hpops]; rw [i10, hs1]
      simp only []
      push_cast
      ring
    · rw [hredN, hpops]; rw [i11, hs1]
      simp only [e2]
      omega
    · rw [hredN, hpops]; exact i12
    · rw [hredN, hpops]; exact i13
    · rw [hredN, hpops]; exact i14

/-- A state with empty storage and zero size is just itself with those two
fields written. -/
theorem heap_state_eq {s : MinHeap V} (hnil : s.heap = []) (hsz : s.size = 0) :
    s = { s with heap := ([] : List Nat), size := (0 : Int) } := by
  cases s
  simp_all

/-- Under size/length consistency, the drain loop performs exactly
`len(heap)` extractions and ends on the emptied state — no order
assumptions. -/
theorem drainAux_len (fuel : Nat) :
    ∀ s : MinHeap V, Consistent s → s.heap.length ≤ fuel →
      (drainAux fuel s).1.length = s.heap.length ∧
      (drainAux fuel s).2 = { s with heap := [], size := 0 } := by
  induction fuel with
  | zero =>
    intro s hc hle
    have hlen : s.heap.length = 0 := by omega
    have hnil : s.heap = [] := List.length_eq_zero.1 hlen
    have hsz : s.size = 0 := by rw [hc, hlen]; rfl
    exact ⟨by simp [drainAux, hlen], heap_state_eq hnil hsz⟩
  | succ n ih =>
    intro s hc hle
    by_cases hsz : s.size = 0
    · have hlen : s.heap.length = 0 := by rw [hc] at hsz; exact_mod_cast hsz
      have hnil : s.heap = [] := List.length_eq_zero.1 hlen
      have hred : drainAux (n + 1) s = ([], s) := by
        conv_lhs => rw [drainAux]
        rw [if_pos hsz]
      rw [hred]
      exact ⟨by simp [hlen], heap_state_eq hnil hsz⟩
    · have hlpos : 0 < s.heap.length := by
        rcases Nat.eq_zero_or_pos s.heap.length with h0 | h0
        · rw [hc, h0] at hsz; simp at hsz
        · exact h0
      have hne : s.heap ≠ [] := by
        intro h
        rw [h] at hlpos
        simp at hlpos
      obtain ⟨a, ha1, ha2, ha3⟩ := popNode_some hne
      set s1 : MinHeap V :=
        { s with size := s.size - 1, heap := (heappopPy (ltId s.arena) s.heap).2 } with hs1
      have hred : drainAux (n + 1) s
          = (getNodeD s.arena a :: (drainAux n s1).1, (drainAux n s1).2) := by
        conv_lhs => rw [drainAux]
        rw [if_neg hsz, ha1]
      have hc1 : Consistent s1 := by
        unfold Consistent at hc ⊢
        rw [hs1]
        simp only [ha2]
        rw [hc]
        push_cast
        omega
      obtain ⟨j1, j2⟩ := ih s1 hc1 (by rw [hs1]; simp only [ha2]; omega)
      rw [hred]
      constructor
      · rw [List.length_cons, j1, hs1]
        simp only [ha2]
        omega
      · rw [j2]

/-- Functional correctness of the drain loop on a valid heap: the extracted
node sequence is sorted in the node total order, it is exactly the live
multiset, and the final state is the emptied one. -/
theorem drainAux_spec (fuel : Nat) :
    ∀ s : MinHeap V, WF s → HeapOkS s → Consistent s → s.heap.length ≤ fuel →
      List.Pairwise HeapNode.leB (drainAux fuel s).1 ∧
      (((drainAux fuel s).1 : List (HeapNode V)) : Multiset (HeapNode V))
        = ((liveNodes s : List (HeapNode V)) : Multiset (HeapNode V)) ∧
      (drainAux fuel s).2 = { s with heap := [], size := 0 } := by
  induction fuel with
  | zero =>
    intro s _ _ hc hle
    have hlen : s.heap.length = 0 := by omega
    have hnil : s.heap = [] := List.length_eq_zero.1 hlen
    have hsz : s.size = 0 := by rw [hc, hlen]; rfl
    exact ⟨List.Pairwise.nil, by simp [drainAux, liveNodes, hnil],
      heap_state_eq hnil hsz⟩
  | succ n ih =>
    intro s hwf hh hc hle
    by_cases hsz : s.size = 0
    · have hlen : s.heap.length = 0 := by rw [hc] at hsz; exact_mod_cast hsz
      have hnil : s.heap = [] := List.length_eq_zero.1 hlen
      have hred : drainAux (n + 1) s = ([], s) := by
        conv_lhs => rw [drainAux]
        rw [if_pos hsz]
      rw [hred]
      exact ⟨List.Pairwise.nil, by simp [liveNodes, hnil], heap_state_eq hnil hsz⟩
    · have hlpos : 0 < s.heap.length := by
        rcases Nat.eq_zero_or_pos s.heap.length with h0 | h0
        · rw [hc, h0] at hsz; simp at hsz
        · exact h0
      have hne : s.heap ≠ [] := by
        intro h
        rw [h] at hlpos
        simp at hlpos
      obtain ⟨e1, e2, e3, e4, e5⟩ := popNode_spec hne hwf hh
      set minN : HeapNode V := getNodeD s.arena (s.heap.getD 0 default) with hminN
      set s1 : MinHeap V :=
        { s with size := s.size - 1, heap := (heappopPy (ltId s.arena) s.heap).2 } with hs1
      have hred : drainAux (n + 1) s
          = (minN :: (drainAux n s1).1, (drainAux n s1).2) := by
        conv_lhs => rw [drainAux]
        rw [if_neg hsz, e1]
      have hwf1 : WF s1 := by
        intro id hid
        apply hwf
        have : id ∈ ((s.heap : List Nat) : Multiset Nat) := by
          rw [← e4]
          exact Multiset.mem_add.2 (Or.inl (by simpa using hid))
        simpa using this
      have hh1 : HeapOkS s1 := e3
      have hc1 : Consistent s1 := by
        unfold Consistent at hc ⊢
        rw [hs1]
        simp only [e2]
        rw [hc]
        push_cast
        omega
      obtain ⟨j1, j2, j3⟩ := ih s1 hwf1 hh1 hc1 (by rw [hs1]; simp only [e2]; omega)
      have hms1 : ((liveNodes s1 : List (HeapNode V)) : Multiset (HeapNode V)) + {minN}
          = ((liveNodes s : List (HeapNode V)) : Multiset (HeapNode V)) := by
        have h0 := ms_map_nodes (V := V) s.arena e4
        rw [← hminN] at h0
        exact h0
      have hminAll : ∀ b ∈ liveNodes s1, HeapNode.leB minN b := by
        intro b hb
        obtain ⟨id, hid, rfl⟩ := List.mem_map.1 hb
        have hid' : id ∈ s.heap := by
          have : id ∈ ((s.heap : List Nat) : Multiset Nat) := by
            rw [← e4]
            exact Multiset.mem_add.2 (Or.inl (by simpa using hid))
          simpa using this
        exact e5 id hid'
      have hmem : ∀ b ∈ (drainAux n s1).1, b ∈ liveNodes s1 := by
        intro b hb
        have : b ∈ ((liveNodes s1 : List (HeapNode V)) : Multiset (HeapNode V)) := by
          rw [← j2]
          simpa using hb
        simpa using this
      rw [hred]
      refine ⟨List.Pairwise.cons (fun a ha => hminAll a (hmem a ha)) j1, ?_, by rw [j3]⟩
      have : ((minN :: (drainAux n s1).1 : List (HeapNode V)) : Multiset (HeapNode V))
          = {minN} + (((drainAux n s1).1 : List (HeapNode V)) : Multiset (HeapNode V)) := by
        simp [Multiset.singleton_add]
      rw [this, j2, add_comm]
      exact hms1

/-! #### Per-operation frame lemmas -/

theorem pushWithPriority_frame (s : MinHeap V) (v : V) (p : Int) :
    (pushWithPriority s v p).heap.length = s.heap.length + 1 ∧
    (pushWithPriority s v p).size = s.size + 1 ∧
    (pushWithPriority s v p).snapshots = s.snapshots ∧
    (pushWithPriority s v p).arena = s.arena ++ [⟨p, v, s.insertion_count⟩] ∧
    (pushWithPriority s v p).insertion_count = s.insertion_count + 1 ∧
    (pushWithPriority s v p).key_func = s.key_func := by
  refine ⟨?_, rfl, rfl, rfl, rfl, rfl⟩
  have hh : (pushWithPriority s v p).heap
      = heappushPy (ltId (s.arena ++ [⟨p, v, s.insertion_count⟩])) s.heap s.arena.length :=
    rfl
  rw [hh, (heappushPy_ms _ _ _).1]

/-- `msiftUp_alwaysErr` specialized to the comparison `update_priority`
builds. -/
theorem updUp_shape (arena1 : List (HeapNode V)) (heap : List Nat) (i : Nat) :
    (i = 0 → msiftUp (fun a b => nodeLeExc (getNodeD arena1 a) (getNodeD arena1 b)) heap i
      = .ok (heap.set 0 (heap.getD 0 default))) ∧
    (0 < i → msiftUp (fun a b => nodeLeExc (getNodeD arena1 a) (getNodeD arena1 b)) heap i
      = .error .typeError) :=
  msiftUp_alwaysErr _ (fun _ _ => rfl) heap i

theorem updatePriority_frame (s : MinHeap V) (v : V) (p : Int) :
    (updatePriority s v p).1.heap.length = s.heap.length ∧
    (updatePriority s v p).1.size = s.size ∧
    (updatePriority s v p).1.snapshots = s.snapshots ∧
    (updatePriority s v p).1.insertion_count = s.insertion_count ∧
    (updatePriority s v p).1.key_func = s.key_func ∧
    (updatePriority s v p).1.arena.length = s.arena.length := by
  unfold updatePriority
  cases hfind : findValueIdx s.arena v s.heap 0 with
  | none => exact ⟨rfl, rfl, rfl, rfl, rfl, rfl⟩
  | some i =>
    simp only []
    split_ifs with hlt
    · rcases Nat.eq_zero_or_pos i with h0 | h0
      · subst h0
        rw [(updUp_shape _ s.heap 0).1 rfl]
        exact ⟨by simp, rfl, rfl, rfl, rfl, by simp⟩
      · rw [(updUp_shape _ s.heap i).2 h0]
        exact ⟨rfl, rfl, rfl, rfl, rfl, by simp⟩
    · exact ⟨by simp [msiftDown_len], rfl, rfl, rfl, rfl, by simp⟩

theorem removeValue_frame (s : MinHeap V) (v : V) :
    ((removeValue s v).2 = false → (removeValue s v).1 = s) ∧
    ((removeValue s v).2 = true →
      0 < s.heap.length ∧
      (removeValue s v).1.heap.length = s.heap.length - 1 ∧
      (removeValue s v).1.size = s.size - 1 ∧
      (removeValue s v).1.snapshots = s.snapshots ∧
      (removeValue s v).1.arena = s.arena ∧
      (removeValue s v).1.insertion_count = s.insertion_count ∧
      (removeValue s v).1.key_func = s.key_func) := by
  unfold removeValue
  cases hfind : findValueIdx s.arena v s.heap 0 with
  | none => exact ⟨fun _ => rfl, fun h => by simp at h⟩
  | some i =>
    obtain ⟨_, hlen, _⟩ := findValueIdx_spec s.arena v s.heap 0 i hfind
    refine ⟨fun h => by simp at h, fun _ => ⟨by omega, ?_, rfl, rfl, rfl, rfl, rfl⟩⟩
    simp only []
    split_ifs with hin
    · rw [msiftDown_len, List.length_dropLast, List.length_set]
    · rw [List.length_dropLast, List.length_set]

theorem foldPush_frame (items : List (Int × V)) :
    ∀ s : MinHeap V,
      (items.foldl (fun t pv => pushWithPriority t pv.2 pv.1) s).heap.length
        = s.heap.length + items.length ∧
      (items.foldl (fun t pv => pushWithPriority t pv.2 pv.1) s).size
        = s.size + items.length ∧
      (items.foldl (fun t pv => pushWithPriority t pv.2 pv.1) s).snapshots = s.snapshots ∧
      (items.foldl (fun t pv => pushWithPriority t pv.2 pv.1) s).insertion_count
        = s.insertion_count + items.length ∧
      (items.foldl (fun t pv => pushWithPriority t pv.2 pv.1) s).key_func = s.key_func := by
  induction items with
  | nil => intro s; simp
  | cons it rest ih =>
    intro s
    obtain ⟨p1, p2, p3, p4, p5, p6⟩ := pushWithPriority_frame s it.2 it.1
    obtain ⟨q1, q2, q3, q4, q5⟩ := ih (pushWithPriority s it.2 it.1)
    simp only [List.foldl_cons, List.length_cons]
    refine ⟨by rw [q1, p1]; omega, by rw [q2, p2]; push_cast; ring, by rw [q3, p3],
      by rw [q4, p5]; omega, by rw [q5, p6]⟩

theorem bulkPush_frame (s : MinHeap V) (items : List (Int × V)) :
    (bulkPush s items).heap.length = s.heap.length + items.length ∧
    (bulkPush s items).size = s.size + items.length ∧
    (bulkPush s items).snapshots = s.snapshots ∧
    (bulkPush s items).insertion_count = s.insertion_count + items.length ∧
    (bulkPush s items).key_func = s.key_func := by
  obtain ⟨q1, q2, q3, q4, q5⟩ := foldPush_frame items s
  unfold bulkPush
  exact ⟨by rw [(heapifyPy_ms _ _).1, q1], q2, q3, q4, q5⟩

theorem mergeStates_frame (s other : MinHeap V) :
    (mergeStates s other).2 = other ∧
    (mergeStates s other).1.heap.length = s.heap.length + other.heap.length ∧
    (mergeStates s other).1.size = s.size + other.size ∧
    (mergeStates s other).1.snapshots = s.snapshots ∧
    (mergeStates s other).1.insertion_count = s.insertion_count ∧
    (mergeStates s other).1.key_func = s.key_func := by
  refine ⟨rfl, ?_, rfl, rfl, rfl, rfl⟩
  have hh : (mergeStates s other).1.heap
      = heapifyPy (ltId (s.arena ++ other.arena))
          (s.heap ++ other.heap.map (fun i => i + s.arena.length)) := rfl
  rw [hh, (heapifyPy_ms _ _).1]
  simp

/-! #### The size accounting law for scope-free programs -/

theorem counts_add_fields (a b : Counts) :
    (Counts.add a b).pushes = a.pushes + b.pushes ∧
    (Counts.add a b).absorbed = a.absorbed + b.absorbed ∧
    (Counts.add a b).pops = a.pops + b.pops ∧
    (Counts.add a b).removes = a.removes + b.removes :=
  ⟨rfl, rfl, rfl, rfl⟩

theorem run_size_law (prog : Prog V) :
    ∀ s : MinHeap V, scopeFreeB prog = true → Consistent s →
      (run s prog).1.size = s.size + ((run s prog).2.2.pushes : Int)
        + ((run s prog).2.2.absorbed : Int) - ((run s prog).2.2.pops : Int)
        - ((run s prog).2.2.removes : Int) ∧
      Consistent (run s prog).1 := by
  induction prog with
  | nil =>
    intro s _ hc
    exact ⟨by simp [run], hc⟩
  | pushP p v rest ih =>
    intro s hsf hc
    obtain ⟨f1, f2, _, _, _, _⟩ := pushWithPriority_frame s v p
    have hc1 : Consistent (pushWithPriority s v p) := by
      unfold Consistent
      rw [f1, f2, hc]
      push_cast
      ring
    obtain ⟨ih1, ih2⟩ := ih (pushWithPriority s v p) hsf hc1
    have hred : run s (.pushP p v rest)
        = ((run (pushWithPriority s v p) rest).1,
            (run (pushWithPriority s v p) rest).2.1,
            Counts.add ⟨1, 0, 0, 0⟩ (run (pushWithPriority s v p) rest).2.2) := rfl
    rw [hred]
    refine ⟨?_, ih2⟩
    simp only [Counts.add]
    rw [ih1, f2]
    push_cast
    ring
  | popP rest ih =>
    intro s hsf hc
    by_cases hne : s.heap = []
    · have hpop : pop s = (none, s) := by
        unfold pop popNode
        rw [if_pos (by simp [hne])]
        rfl
      have hred : run s (.popP rest)
          = ((run (pop s).2 rest).1, (run (pop s).2 rest).2.1,
              Counts.add ⟨0, 0, if (pop s).1.isSome then 1 else 0, 0⟩
                (run (pop s).2 rest).2.2) := rfl
      obtain ⟨ih1, ih2⟩ := ih s hsf hc
      rw [hred, hpop]
      simp only [Option.isSome_none, Bool.false_eq_true, if_false, Counts.add]
      refine ⟨?_, ih2⟩
      rw [ih1]
      push_cast
      ring
    · obtain ⟨a, ha1, ha2, _⟩ := popNode_some hne
      have hlpos : 0 < s.heap.length := List.length_pos.2 hne
      set s1 : MinHeap V :=
        { s with size := s.size - 1, heap := (heappopPy (ltId s.arena) s.heap).2 } with hs1
      have hpop : pop s = (some (getNodeD s.arena a).value, s1) := by
        unfold pop
        rw [ha1]
        rfl
      have hc1 : Consistent s1 := by
        unfold Consistent
        rw [hs1]
        simp only [ha2]
        rw [hc]
        push_cast
        omega
      obtain ⟨ih1, ih2⟩ := ih s1 hsf hc1
      have hred : run s (.popP rest)
          = ((run (pop s).2 rest).1, (run (pop s).2 rest).2.1,
              Counts.add ⟨0, 0, if (pop s).1.isSome then 1 else 0, 0⟩
                (run (pop s).2 rest).2.2) := rfl
      rw [hred, hpop]
      simp only [Option.isSome_some, if_true, Counts.add]
      refine ⟨?_, ih2⟩
      rw [ih1, hs1]
      simp only []
      push_cast
      ring
  | removeP v rest ih =>
    intro s hsf hc
    obtain ⟨hfalse, htrue⟩ := removeValue_frame s v
    have hred : run s (.removeP v rest)
        = ((run (removeValue s v).1 rest).1, (run (removeValue s v).1 rest).2.1,
            Counts.add ⟨0, 0, 0, if (removeValue s v).2 then 1 else 0⟩
              (run (removeValue s v).1 rest).2.2) := rfl
    cases hrv : (removeValue s v).2 with
    | false =>
      rw [hred, hfalse hrv, hrv]
      obtain ⟨ih1, ih2⟩ := ih s hsf hc
      simp only [Bool.false_eq_true, if_false, Counts.add]
      refine ⟨?_, ih2⟩
      rw [ih1]
      push_cast
      ring
    | true =>
      obtain ⟨g0, g1, g2, _, _, _, _⟩ := htrue hrv
      have hc1 : Consistent (removeValue s v).1 := by
        unfold Consistent
        rw [g1, g2, hc]
        push_cast
        omega
      obtain ⟨ih1, ih2⟩ := ih (removeValue s v).1 hsf hc1
      rw [hred, hrv]
      simp only [if_true, Counts.add]
      refine ⟨?_, ih2⟩
      rw [ih1, g2]
      push_cast
      ring
  | updateP v p rest ih =>
    intro s hsf hc
    obtain ⟨u1, u2, _, _, _, _⟩ := updatePriority_frame s v p
    have hc1 : Consistent (updatePriority s v p).1 := by
      unfold Consistent
      rw [u1, u2, hc]
    cases hu : (updatePriority s v p).2 with
    | error e =>
      have hred : run s (.updateP v p rest) = ((updatePriority s v p).1, false, ⟨0, 0, 0, 0⟩) := by
        simp only [run]
        rw [hu]
      rw [hred]
      refine ⟨?_, hc1⟩
      rw [u2]
      push_cast
      ring
    | ok b =>
      have hred : run s (.updateP v p rest)
          = ((run (updatePriority s v p).1 rest).1,
              (run (updatePriority s v p).1 rest).2.1,
              (run (updatePriority s v p).1 rest).2.2) := by
        simp only [run]
        rw [hu]
      obtain ⟨ih1, ih2⟩ := ih (updatePriority s v p).1 hsf hc1
      rw [hred]
      refine ⟨?_, ih2⟩
      rw [ih1, u2]
  | bulkP items rest ih =>
    intro s hsf hc
    obtain ⟨b1, b2, _, _, _⟩ := bulkPush_frame s items
    have hc1 : Consistent (bulkPush s items) := by
      unfold Consistent
      rw [b1, b2, hc]
      push_cast
      ring
    obtain ⟨ih1, ih2⟩ := ih (bulkPush s items) hsf hc1
    have hred : run s (.bulkP items rest)
        = ((run (bulkPush s items) rest).1, (run (bulkPush s items) rest).2.1,
            Counts.add ⟨items.length, 0, 0, 0⟩ (run (bulkPush s items) rest).2.2) := rfl
    rw [hred]
    refine ⟨?_, ih2⟩
    simp only [Counts.add]
    rw [ih1, b2]
    push_cast
    ring
  | mergeP nodes rest ih =>
    intro s hsf hc
    obtain ⟨_, m1, m2, _, _, _⟩ := mergeStates_frame s (heapOfNodes nodes)
    have hootherlen : (heapOfNodes nodes : MinHeap V).heap.length = nodes.length := by
      simp [heapOfNodes]
    have hc1 : Consistent (mergeStates s (heapOfNodes nodes)).1 := by
      unfold Consistent
      rw [m1, m2, hc, hootherlen]
      simp [heapOfNodes]
    obtain ⟨ih1, ih2⟩ := ih (mergeStates s (heapOfNodes nodes)).1 hsf hc1
    have hred : run s (.mergeP nodes rest)
        = ((run (mergeStates s (heapOfNodes nodes)).1 rest).1,
            (run (mergeStates s (heapOfNodes nodes)).1 rest).2.1,
            Counts.add ⟨0, nodes.length, 0, 0⟩
              (run (mergeStates s (heapOfNodes nodes)).1 rest).2.2) := rfl
    rw [hred]
    refine ⟨?_, ih2⟩
    simp only [Counts.add]
    rw [ih1, m2]
    simp only [heapOfNodes]
    push_cast
    ring
  | drainP rest ih =>
    intro s hsf hc
    obtain ⟨d1, d2⟩ := drainAux_len (V := V) s.heap.length s hc (Nat.le_refl _)
    have hdr : drain s = ((drainAux s.heap.length s).1.map HeapNode.value,
        (drainAux s.heap.length s).2) := rfl
    have hc1 : Consistent (drain s).2 := by
      rw [hdr, d2]
      unfold Consistent
      simp
    obtain ⟨ih1, ih2⟩ := ih (drain s).2 hsf hc1
    have hred : run s (.drainP rest)
        = ((run (drain s).2 rest).1, (run (drain s).2 rest).2.1,
            Counts.add ⟨0, 0, (drain s).1.length, 0⟩ (run (drain s).2 rest).2.2) := rfl
    rw [hred]
    refine ⟨?_, ih2⟩
    simp only [Counts.add]
    rw [ih1]
    have hsz2 : (drain s).2.size = 0 := by
      rw [hdr, d2]
    have hlen2 : (drain s).1.length = s.heap.length := by
      rw [hdr]
      simp only [List.length_map]
      exact d1
    rw [hsz2, hlen2, hc]
    push_cast
    ring
  | scopeP inner rest ihi ihr =>
    intro s hsf _
    simp [scopeFreeB] at hsf
  | raiseP rest _ =>
    intro s _ hc
    exact ⟨by simp [run], hc⟩

/-! #### Sequence-number bookkeeping (for the insertion counter claims) -/

/-- Every node object this instance ever created sits in the arena at the slot
equal to its sequence number (so the `j`-th created node carries sequence
number `j`), and the counter equals the number of nodes ever created. -/
def ArenaSeq (s : MinHeap V) : Prop :=
  (∀ j, j < s.arena.length → (s.arena.getD j default).insertion_count = j) ∧
  s.insertion_count = s.arena.length

instance (s : MinHeap V) : Decidable (ArenaSeq s) := by
  unfold ArenaSeq; infer_instance

theorem arenaSeq_push {s : MinHeap V} (h : ArenaSeq s) (v : V) (p : Int) :
    ArenaSeq (pushWithPriority s v p) := by
  obtain ⟨h1, h2⟩ := h
  obtain ⟨_, _, _, f4, f5, _⟩ := pushWithPriority_frame s v p
  constructor
  · intro j hj
    rw [f4] at hj ⊢
    simp only [List.length_append, List.length_singleton] at hj
    by_cases hlt : j < s.arena.length
    · rw [List.getD_append _ _ _ _ hlt]
      exact h1 j hlt
    · have hj' : j = s.arena.length := by omega
      subst hj'
      rw [List.getD_append_right _ _ _ _ (Nat.le_refl _), Nat.sub_self]
      show (⟨p, v, s.insertion_count⟩ : HeapNode V).insertion_count = s.arena.length
      exact h2
  · rw [f5, f4, h2]
    simp

theorem arenaSeq_update {s : MinHeap V} (h : ArenaSeq s) (v : V) (p : Int) :
    ArenaSeq (updatePriority s v p).1 := by
  obtain ⟨h1, h2⟩ := h
  have harena : ∀ nid : Nat,
      ArenaSeq ({ s with
        arena := s.arena.set nid
          { getNodeD s.arena nid with priority := p } } : MinHeap V) := by
    intro nid
    constructor
    · intro j hj
      simp only [List.length_set] at hj
      by_cases heq : nid = j
      · subst heq
        rw [getD_set_self hj]
        exact h1 nid hj
      · rw [getD_set_ne heq]
        exact h1 j hj
    · simp only [List.length_set]
      exact h2
  unfold updatePriority
  cases hfind : findValueIdx s.arena v s.heap 0 with
  | none => exact ⟨h1, h2⟩
  | some i =>
    simp only []
    split_ifs with hlt
    · rcases Nat.eq_zero_or_pos i with h0 | h0
      · subst h0
        rw [(updUp_shape _ s.heap 0).1 rfl]
        exact harena _
      · rw [(updUp_shape _ s.heap i).2 h0]
        exact harena _
    · exact harena _

theorem popNode_frame (s : MinHeap V) :
    (popNode s).2.arena = s.arena ∧
    (popNode s).2.insertion_count = s.insertion_count ∧
    (popNode s).2.snapshots = s.snapshots ∧
    (popNode s).2.key_func = s.key_func := by
  unfold popNode
  split_ifs <;> exact ⟨rfl, rfl, rfl, rfl⟩

theorem drainAux_frame (fuel : Nat) :
    ∀ s : MinHeap V,
      (drainAux fuel s).2.arena = s.arena ∧
      (drainAux fuel s).2.insertion_count = s.insertion_count ∧
      (drainAux fuel s).2.snapshots = s.snapshots ∧
      (drainAux fuel s).2.key_func = s.key_func := by
  induction fuel with
  | zero => exact fun s => ⟨rfl, rfl, rfl, rfl⟩
  | succ n ih =>
    intro s
    by_cases hsz : s.size = 0
    · have hred : drainAux (n + 1) s = ([], s) := by
        conv_lhs => rw [drainAux]
        rw [if_pos hsz]
      rw [hred]
      exact ⟨rfl, rfl, rfl, rfl⟩
    · rcases hp : popNode s with ⟨o, s1⟩
      have hfr := popNode_frame s
      rw [hp] at hfr
      obtain ⟨g1, g2, g3, g4⟩ := hfr
      cases o with
      | none =>
        have hred : drainAux (n + 1) s = ([], s1) := by
          conv_lhs => rw [drainAux]
          rw [if_neg hsz, hp]
        rw [hred]
        exact ⟨g1, g2, g3, g4⟩
      | some nd =>
        have hred : drainAux (n + 1) s
            = (nd :: (drainAux n s1).1, (drainAux n s1).2) := by
          conv_lhs => rw [drainAux]
          rw [if_neg hsz, hp]
        rw [hred]
        obtain ⟨i1, i2, i3, i4⟩ := ih s1
        exact ⟨by rw [i1, g1], by rw [i2, g2], by rw [i3, g3], by rw [i4, g4]⟩

theorem arenaSeq_of_eq {s s' : MinHeap V} (ha : s'.arena = s.arena)
    (hc : s'.insertion_count = s.insertion_count) (h : ArenaSeq s) : ArenaSeq s' := by
  obtain ⟨h1, h2⟩ := h
  constructor
  · rw [ha]
    exact h1
  · rw [hc, ha]
    exact h2

theorem arenaSeq_fold (items : List (Int × V)) :
    ∀ s : MinHeap V, ArenaSeq s →
      ArenaSeq (items.foldl (fun t pv => pushWithPriority t pv.2 pv.1) s) := by
  induction items with
  | nil => exact fun s h => h
  | cons it rest ih =>
    intro s h
    exact ih (pushWithPriority s it.2 it.1) (arenaSeq_push h it.2 it.1)

/-- Running any merge-free program preserves the sequence-number bookkeeping:
every node the instance ever created keeps its distinct sequence number (the
`j`-th created node has number `j`), and the counter, which no snapshot
rollback restores, stays equal to the number of nodes ever created. -/
theorem run_arenaSeq (prog : Prog V) :
    ∀ s : MinHeap V, mergeFreeB prog = true → ArenaSeq s → ArenaSeq (run s prog).1 := by
  induction prog with
  | nil => exact fun s _ h => h
  | pushP p v rest ih =>
    intro s hmf h
    exact ih (pushWithPriority s v p) hmf (arenaSeq_push h v p)
  | popP rest ih =>
    intro s hmf h
    have hfr := popNode_frame s
    exact ih (pop s).2 hmf (arenaSeq_of_eq hfr.1 hfr.2.1 h)
  | removeP v rest ih =>
    intro s hmf h
    obtain ⟨hfalse, htrue⟩ := removeValue_frame s v
    cases hrv : (removeValue s v).2 with
    | false => exact ih (removeValue s v).1 hmf ((hfalse hrv).symm ▸ h)
    | true =>
      obtain ⟨_, _, _, _, g5, g6, _⟩ := htrue hrv
      exact ih (removeValue s v).1 hmf (arenaSeq_of_eq g5 g6 h)
  | updateP v p rest ih =>
    intro s hmf h
    have h1 := arenaSeq_update h v p
    cases hu : (updatePriority s v p).2 with
    | error e =>
      have hred : run s (.updateP v p rest) = ((updatePriority s v p).1, false, ⟨0, 0, 0, 0⟩) := by
        simp only [run]
        rw [hu]
      rw [hred]
      exact h1
    | ok b =>
      have hred : run s (.updateP v p rest)
          = ((run (updatePriority s v p).1 rest).1,
              (run (updatePriority s v p).1 rest).2.1,
              (run (updatePriority s v p).1 rest).2.2) := by
        simp only [run]
        rw [hu]
      rw [hred]
      exact ih (updatePriority s v p).1 hmf h1
  | bulkP items rest ih =>
    intro s hmf h
    have hfold := arenaSeq_fold items s h
    exact ih (bulkPush s items) hmf (arenaSeq_of_eq rfl rfl hfold)
  | mergeP nodes rest ih =>
    intro s hmf _
    simp [mergeFreeB] at hmf
  | drainP rest ih =>
    intro s hmf h
    have hfr := drainAux_frame s.heap.length s
    exact ih (drain s).2 hmf (arenaSeq_of_eq hfr.1 hfr.2.1 h)
  | scopeP inner rest ihi ihr =>
    intro s hmf h
    have hmf2 : mergeFreeB inner = true ∧ mergeFreeB rest = true := by
      simpa [mergeFreeB, Bool.and_eq_true] using hmf
    have henter : ArenaSeq (snapEnter s) := arenaSeq_of_eq rfl rfl h
    have hinner := ihi (snapEnter s) hmf2.1 henter
    have hexit : ArenaSeq (snapExit (run (snapEnter s) inner).1) :=
      arenaSeq_of_eq rfl rfl hinner
    cases hok : (run (snapEnter s) inner).2.1 with
    | false =>
      have hred : run s (.scopeP inner rest)
          = (snapExit (run (snapEnter s) inner).1, false, (run (snapEnter s) inner).2.2) := by
        simp only [run]
        rw [hok]
        simp
      rw [hred]
      exact hexit
    | true =>
      have hred : run s (.scopeP inner rest)
          = ((run (snapExit (run (snapEnter s) inner).1) rest).1,
              (run (snapExit (run (snapEnter s) inner).1) rest).2.1,
              Counts.add (run (snapEnter s) inner).2.2
                (run (snapExit (run (snapEnter s) inner).1) rest).2.2) := by
        simp only [run]
        rw [hok]
        simp
      rw [hred]
      exact ihr (snapExit (run (snapEnter s) inner).1) hmf2.2 hexit
  | raiseP rest _ =>
    exact fun s _ h => h

/-! #### Merge, k-smallest, drain and pop/peek specifications -/

/-- After `merge`, the live node multiset of `self` is the disjoint union of
the two live node multisets — every node, its sequence number included, is
taken over verbatim. -/
theorem merge_liveNodes (s other : MinHeap V) (hs : WF s) (ho : WF other) :
    ((liveNodes (mergeStates s other).1 : List (HeapNode V)) : Multiset (HeapNode V))
      = ((liveNodes s : List (HeapNode V)) : Multiset (HeapNode V))
        + ((liveNodes other : List (HeapNode V)) : Multiset (HeapNode V)) := by
  have hh : (mergeStates s other).1.heap
      = heapifyPy (ltId (s.arena ++ other.arena))
          (s.heap ++ other.heap.map (fun i => i + s.arena.length)) := rfl
  have hmsid := (heapifyPy_ms (ltId (s.arena ++ other.arena))
    (s.heap ++ other.heap.map (fun i => i + s.arena.length))).2
  have hlive : ((liveNodes (mergeStates s other).1 : List (HeapNode V)) : Multiset (HeapNode V))
      = Multiset.map (getNodeD (s.arena ++ other.arena))
          (((s.heap ++ other.heap.map (fun i => i + s.arena.length)) : List Nat) :
            Multiset Nat) := by
    have : liveNodes (mergeStates s other).1
        = (heapifyPy (ltId (s.arena ++ other.arena))
            (s.heap ++ other.heap.map (fun i => i + s.arena.length))).map
            (getNodeD (s.arena ++ other.arena)) := by
      unfold liveNodes
      rw [hh]
      rfl
    rw [this, ← Multiset.map_coe, hmsid]
  rw [hlive, Multiset.map_coe]
  have hsplit : (s.heap ++ other.heap.map (fun i => i + s.arena.length)).map
      (getNodeD (s.arena ++ other.arena))
      = s.heap.map (getNodeD s.arena) ++ other.heap.map (getNodeD other.arena) := by
    rw [List.map_append]
    congr 1
    · apply List.map_congr_left
      intro id hid
      unfold getNodeD
      rw [List.getD_append _ _ _ _ (hs id hid)]
    · rw [List.map_map]
      apply List.map_congr_left
      intro id hid
      unfold getNodeD
      simp only [Function.comp]
      rw [List.getD_append_right _ _ _ _ (by omega)]
      congr 1
      omega
  rw [hsplit]
  unfold liveNodes
  rw [← Multiset.coe_add]

/-- Full functional correctness of `k_smallest` on a valid heap: the call
returns the values of `min(k, size)` (clamped at zero) nodes, in ascending
node order, which are below everything left out, and the heap state after the
call is exactly the state before. -/
theorem kSmallest_spec (s : MinHeap V) (k : Int) (hwf : WF s) (hh : HeapOkS s)
    (hc : Consistent s) :
    ∃ ns rest : List (HeapNode V),
      (kSmallest s k).1 = ns.map (fun n => some n.value) ∧
      ns.length = (min k s.size).toNat ∧
      (0 ≤ k → (ns.length : Int) = min k s.size) ∧
      List.Pairwise HeapNode.leB ns ∧
      ((ns : List (HeapNode V)) : Multiset (HeapNode V))
        + ((rest : List (HeapNode V)) : Multiset (HeapNode V))
        = ((liveNodes s : List (HeapNode V)) : Multiset (HeapNode V)) ∧
      (∀ a ∈ ns, ∀ b ∈ rest, HeapNode.leB a b) ∧
      (kSmallest s k).2 = s := by
  set s0 : MinHeap V := snapEnter s with hs0
  have hwf0 : WF s0 := hwf
  have hh0 : HeapOkS s0 := hh
  have hc0 : Consistent s0 := hc
  have hsz0 : s0.size = s.size := rfl
  set m : Nat := (min k s0.size).toNat with hm
  have hmle : (m : Int) ≤ s0.size := by
    rw [hm]
    have : (0 : Int) ≤ s0.size := by
      rw [hsz0, hc]
      positivity
    omega
  obtain ⟨ns, i1, i2, i3, i4, i5, i6, i7, i8, i9, i10, i11, i12, i13, i14⟩ :=
    popN_spec m s0 hwf0 hh0 hc0 hmle
  refine ⟨ns, liveNodes (popN s0 m).2, ?_, ?_, ?_, i3, i4, i5, ?_⟩
  · exact i1
  · rw [i2, hm, hsz0]
  · intro hk
    rw [i2, hm, hsz0]
    have h0 : (0 : Int) ≤ s.size := by rw [hc]; positivity
    omega
  · have hsnap : (popN s0 m).2.snapshots = s.snapshots ++ [s.heap] := i7
    have hlast : (s.snapshots ++ [s.heap]).getLastD [] = s.heap :=
      List.getLastD_concat _ _ _
    have hdrop : (s.snapshots ++ [s.heap]).dropLast = s.snapshots :=
      List.dropLast_concat
    show snapExit (popN s0 m).2 = s
    apply MinHeap.ext
    · exact i6
    · show (popN s0 m).2.snapshots.getLastD [] = s.heap
      rw [hsnap, hlast]
    · show (((popN s0 m).2.snapshots.getLastD []).length : Int) = s.size
      rw [hsnap, hlast, hc]
    · exact i8
    · exact i9
    · show (popN s0 m).2.snapshots.dropLast = s.snapshots
      rw [hsnap, hdrop]

/-- Full functional correctness of `drain` on a valid heap: the yielded values
are the values of the live nodes in ascending node order, and the heap ends
empty (`is_empty` true, storage empty, size zero). -/
theorem drain_spec (s : MinHeap V) (hwf : WF s) (hh : HeapOkS s) (hc : Consistent s) :
    ∃ ns : List (HeapNode V),
      (drain s).1 = ns.map HeapNode.value ∧
      List.Pairwise HeapNode.leB ns ∧
      ((ns : List (HeapNode V)) : Multiset (HeapNode V))
        = ((liveNodes s : List (HeapNode V)) : Multiset (HeapNode V)) ∧
      (drain s).2 = { s with heap := [], size := 0 } ∧
      isEmptyH (drain s).2 = true := by
  obtain ⟨j1, j2, j3⟩ := drainAux_spec s.heap.length s hwf hh hc (Nat.le_refl _)
  refine ⟨(drainAux s.heap.length s).1, rfl, j1, j2, j3, ?_⟩
  have : (drain s).2 = (drainAux s.heap.length s).2 := rfl
  rw [this, j3]
  rfl

/-- `pop`/`peek` behavior: `None` on the empty heap with no mutation, and on a
non-empty valid heap `peek` reports the minimal node without mutating while
`pop` removes exactly that node and decrements `size`. -/
theorem pop_peek_spec (s : MinHeap V) (hwf : WF s) (hh : HeapOkS s) :
    (s.heap = [] → pop s = (none, s) ∧ peek s = none) ∧
    (s.heap ≠ [] → ∃ m : HeapNode V,
      peek s = some (m.priority, m.value) ∧
      m ∈ liveNodes s ∧
      (∀ b ∈ liveNodes s, HeapNode.leB m b) ∧
      (pop s).1 = some m.value ∧
      (pop s).2.size = s.size - 1 ∧
      (pop s).2.arena = s.arena ∧
      (pop s).2.snapshots = s.snapshots ∧
      ((liveNodes (pop s).2 : List (HeapNode V)) : Multiset (HeapNode V)) + {m}
        = ((liveNodes s : List (HeapNode V)) : Multiset (HeapNode V))) := by
  constructor
  · intro hnil
    have hemp : s.heap.isEmpty = true := by rw [hnil]; rfl
    constructor
    · unfold pop popNode
      rw [if_pos hemp]
      rfl
    · unfold peek
      rw [if_pos hemp]
  · intro hne
    obtain ⟨e1, e2, e3, e4, e5⟩ := popNode_spec hne hwf hh
    have hemp : s.heap.isEmpty = false := by
      cases hl : s.heap with
      | nil => exact absurd hl hne
      | cons a t => rfl
    set minN : HeapNode V := getNodeD s.arena (s.heap.getD 0 default) with hminN
    have hms := ms_map_nodes (V := V) s.arena e4
    rw [← hminN] at hms
    refine ⟨minN, ?_, ?_, ?_, ?_, ?_, ?_, ?_, ?_⟩
    · unfold peek
      rw [if_neg (by simp [hemp])]
      rfl
    · unfold liveNodes
      apply List.mem_map_of_mem
      have : s.heap.getD 0 default ∈ s.heap := by
        rw [List.getD_eq_getElem _ _ (List.length_pos.2 hne)]
        exact List.getElem_mem _
      exact this
    · intro b hb
      obtain ⟨id, hid, rfl⟩ := List.mem_map.1 hb
      exact e5 id hid
    · unfold pop
      rw [e1]
      rfl
    · unfold pop
      rw [e1]
    · unfold pop
      rw [e1]
    · unfold pop
      rw [e1]
    · unfold pop
      rw [e1]
      exact hms

end StateLemmas

/-! #### Construction failure lemmas -/

/-- The raw, non-numeric, non-pair item shapes. -/
def InitItem.isRaw : InitItem → Bool
  | .rawNotIterable => true
  | .rawWrongArity => true
  | _ => false

/-- The Python built-in error the tuple unpacking `priority, value = item`
raises for a raw item shape. -/
def InitItem.unpackError : InitItem → PyError
  | .rawNotIterable => .typeError
  | _ => .valueError

theorem buildFromItems_raw (bad : InitItem) (hbad : bad.isRaw = true)
    (rest : List InitItem) :
    ∀ (good : List InitItem), (∀ x ∈ good, x.isRaw = false) →
      ∀ s : MinHeap Int,
        buildFromItems s (good ++ bad :: rest) = .error bad.unpackError := by
  intro good
  induction good with
  | nil =>
    intro _ s
    cases bad with
    | num n => simp [InitItem.isRaw] at hbad
    | pair p v => simp [InitItem.isRaw] at hbad
    | rawNotIterable => rfl
    | rawWrongArity => rfl
  | cons g gs ih =>
    intro hgood s
    have hg : g.isRaw = false := hgood g (List.mem_cons_self _ _)
    have hgs : ∀ x ∈ gs, x.isRaw = false := fun x hx => hgood x (List.mem_cons_of_mem _ hx)
    cases g with
    | num n => exact ih hgs (pushInt s n)
    | pair p v => exact ih hgs (pushWithPriority s v p)
    | rawNotIterable => simp [InitItem.isRaw] at hg
    | rawWrongArity => simp [InitItem.isRaw] at hg

theorem minHeapNew_raw (good : List InitItem) (hgood : ∀ x ∈ good, x.isRaw = false)
    (bad : InitItem) (hbad : bad.isRaw = true) (rest : List InitItem)
    (key : Option (Int → Int)) :
    minHeapNew (good ++ bad :: rest) key = .error bad.unpackError := by
  have hne : (good ++ bad :: rest).isEmpty = false := by
    cases good with
    | nil => rfl
    | cons a t => rfl
  unfold minHeapNew
  rw [if_neg (by simp [hne])]
  exact buildFromItems_raw bad hbad rest good hgood _

/-! ### Concrete example states used by the claim witnesses -/

/-- Scenario A of the spec: priorities 5, 2, 8, 1 pushed with values 1..4. -/
def exHeapMain : MinHeap Int :=
  pushWithPriority (pushWithPriority (pushWithPriority (pushWithPriority
    (emptyHeap Int none) 1 5) 2 2) 3 8) 4 1

/-- A valid 7-node heap whose storage carries priorities
`[0, 5, 1, 6, 7, 2, 3]` (values 10..16 in push order). -/
def exHeapSeven : MinHeap Int :=
  pushWithPriority (pushWithPriority (pushWithPriority (pushWithPriority (pushWithPriority
    (pushWithPriority (pushWithPriority (emptyHeap Int none) 10 0) 11 5) 12 1) 13 6) 14 7)
    15 2) 16 3

/-- One node, priority 1, value 7. -/
def exHeapOne : MinHeap Int := pushWithPriority (emptyHeap Int none) 7 1

/-- One node, priority 5, value 8, pushed after `exHeapOne`'s layout. -/
def exHeapTwo : MinHeap Int :=
  pushWithPriority (pushWithPriority (emptyHeap Int none) 7 1) 8 5

/-- One node, priority 3, value 55 — a merge source. -/
def exHeapOther : MinHeap Int := pushWithPriority (emptyHeap Int none) 55 3

/-- Mutate inside a snapshot scope, then exit normally. -/
def progSnapUpd : Prog Int := .scopeP (.updateP 7 99 .nil) .nil

/-- Push once, then pop inside a snapshot scope. -/
def progSnapPop : Prog Int := .pushP 1 5 (.scopeP (.popP .nil) .nil)

/-- A scope-free program exercising push, pop, remove, bulk push, merge and
drain. -/
def progAllOps : Prog Int :=
  .pushP 1 5 (.pushP 2 6 (.popP (.removeP 6 (.bulkP [(3, 7), (4, 8)]
    (.mergeP [⟨9, 9, 0⟩] (.drainP .nil))))))

/-- A merge-free program that pushes inside a rolled-back scope and then
pushes again. -/
def progScopePush : Prog Int :=
  .pushP 5 10 (.scopeP (.pushP 6 11 .nil) (.pushP 7 12 .nil))

/-! ### The claims -/

/-- Claim C1 (code bug): the spec demands that after every public mutating
call the heap invariant `node[i] <= node[c]` holds for all in-range
parent/child pairs, and that `remove`'s safe repair is sift-down then
sift-up.  The code's `remove` only sift-downs, so removing value `13` from
the valid heap `exHeapSeven` (priorities `[0,5,1,6,7,2,3]`) moves the last
node (priority 3) into slot 3 under parent priority 5 and leaves the
invariant broken: the call reports success and `HeapOkS` fails afterward. -/
theorem c1_remove_breaks_heap_invariant :
    HeapOkS exHeapSeven ∧
    (removeValue exHeapSeven 13).2 = true ∧
    ¬ HeapOkS (removeValue exHeapSeven 13).1 := by decide

/-- Claim C2 (code bug): the spec demands the observable heap state (multiset
of (priority, value) pairs plus size) be identical before and after any
snapshot scope, whatever mutations ran inside, `update_priority` included.
But `snapshot` saves only the shallow copy `self.heap[:]` while
`update_priority` mutates the node object in place, so the priority change
survives the rollback: running `with snapshot(): update_priority(7, 99)` on a
heap holding `(1, 7)` exits normally yet changes the observable state. -/
theorem c2_snapshot_update_leaks :
    (run exHeapOne progSnapUpd).2.1 = true ∧
    observe (run exHeapOne progSnapUpd).1 ≠ observe exHeapOne := by decide

/-- Counterexample to claim C3 as stated: after `self.merge(other)`, `other`
is not emptied — its length (= size) is still 1 and it still holds a live
node. -/
theorem c3_merge_other_not_emptied :
    lenH (mergeStates exHeapOne exHeapOther).2 = 1 ∧
    (mergeStates exHeapOne exHeapOther).2.heap ≠ [] ∧
    (1 : Int) ≠ 0 := by decide

/-- Claim C3 (amended): after `self.merge(other)`, `self`'s size becomes the
sum of the two sizes and every absorbed node is taken over verbatim — its
sequence number unrenumbered (the resulting live node multiset is the
disjoint union of the two); but `other` is not consumed: the method never
writes to `other`, which keeps its nodes and size unchanged. -/
theorem c3_merge_frame_amended {V : Type} [Inhabited V] [DecidableEq V]
    (s other : MinHeap V) (hs : WF s) (ho : WF other) :
    (mergeStates s other).2 = other ∧
    (mergeStates s other).1.size = s.size + other.size ∧
    (mergeStates s other).1.insertion_count = s.insertion_count ∧
    ((liveNodes (mergeStates s other).1 : List (HeapNode V)) : Multiset (HeapNode V))
      = ((liveNodes s : List (HeapNode V)) : Multiset (HeapNode V))
        + ((liveNodes other : List (HeapNode V)) : Multiset (HeapNode V)) :=
  ⟨(mergeStates_frame s other).1, (mergeStates_frame s other).2.2.1,
    (mergeStates_frame s other).2.2.2.2.1, merge_liveNodes s other hs ho⟩

/-- Witness for the amended claim C3, at the one-node heaps `exHeapOne` and
`exHeapOther`. -/
theorem c3_merge_frame_amended_witness :
    WF exHeapOne ∧ WF exHeapOther ∧
    ((mergeStates exHeapOne exHeapOther).2 = exHeapOther ∧
      (mergeStates exHeapOne exHeapOther).1.size = exHeapOne.size + exHeapOther.size ∧
      (mergeStates exHeapOne exHeapOther).1.insertion_count = exHeapOne.insertion_count ∧
      ((liveNodes (mergeStates exHeapOne exHeapOther).1 : List (HeapNode Int)) :
          Multiset (HeapNode Int))
        = ((liveNodes exHeapOne : List (HeapNode Int)) : Multiset (HeapNode Int))
          + ((liveNodes exHeapOther : List (HeapNode Int)) : Multiset (HeapNode Int))) :=
  ⟨by decide, by decide, c3_merge_frame_amended exHeapOne exHeapOther (by decide) (by decide)⟩

/-- Claim C4: on every valid heap (invariant, in-range ids, size = length),
draining yields exactly the live nodes' values, ordered non-decreasingly
under the node total order (priority ascending, then insertion sequence
ascending — FIFO among equal priorities), and leaves the heap empty. -/
theorem c4_drain_sorted_spec {V : Type} [Inhabited V] [DecidableEq V] (s : MinHeap V)
    (hwf : WF s) (hh : HeapOkS s) (hc : Consistent s) :
    ∃ ns : List (HeapNode V),
      (drain s).1 = ns.map HeapNode.value ∧
      List.Pairwise HeapNode.leB ns ∧
      ((ns : List (HeapNode V)) : Multiset (HeapNode V))
        = ((liveNodes s : List (HeapNode V)) : Multiset (HeapNode V)) ∧
      (drain s).2 = { s with heap := [], size := 0 } ∧
      isEmptyH (drain s).2 = true :=
  drain_spec s hwf hh hc

/-- Witness for claim C4 at the Scenario-A heap. -/
theorem c4_drain_sorted_spec_witness :
    WF exHeapMain ∧ HeapOkS exHeapMain ∧ Consistent exHeapMain ∧
    ∃ ns : List (HeapNode Int),
      (drain exHeapMain).1 = ns.map HeapNode.value ∧
      List.Pairwise HeapNode.leB ns ∧
      ((ns : List (HeapNode Int)) : Multiset (HeapNode Int))
        = ((liveNodes exHeapMain : List (HeapNode Int)) : Multiset (HeapNode Int)) ∧
      (drain exHeapMain).2 = { exHeapMain with heap := [], size := 0 } ∧
      isEmptyH (drain exHeapMain).2 = true :=
  ⟨by decide, by decide, by decide,
    c4_drain_sorted_spec exHeapMain (by decide) (by decide) (by decide)⟩

/-- Claim C5: on every valid heap, `k_smallest(k)` returns exactly
`min(k, size)` values (clamped at zero, which is what `range` does for a
negative `k`), namely the values of the smallest nodes in ascending order
under the total order — they are below everything left out — and the heap
state after the call is exactly the state before it. -/
theorem c5_k_smallest_spec {V : Type} [Inhabited V] [DecidableEq V]
    (s : MinHeap V) (k : Int) (hwf : WF s) (hh : HeapOkS s) (hc : Consistent s) :
    ∃ ns rest : List (HeapNode V),
      (kSmallest s k).1 = ns.map (fun n => some n.value) ∧
      ns.length = (min k s.size).toNat ∧
      (0 ≤ k → (ns.length : Int) = min k s.size) ∧
      List.Pairwise HeapNode.leB ns ∧
      ((ns : List (HeapNode V)) : Multiset (HeapNode V))
        + ((rest : List (HeapNode V)) : Multiset (HeapNode V))
        = ((liveNodes s : List (HeapNode V)) : Multiset (HeapNode V)) ∧
      (∀ a ∈ ns, ∀ b ∈ rest, HeapNode.leB a b) ∧
      (kSmallest s k).2 = s :=
  kSmallest_spec s k hwf hh hc

/-- Witness for claim C5 at the Scenario-A heap with `k = 2`. -/
theorem c5_k_smallest_spec_witness :
    WF exHeapMain ∧ HeapOkS exHeapMain ∧ Consistent exHeapMain ∧
    ∃ ns rest : List (HeapNode Int),
      (kSmallest exHeapMain 2).1 = ns.map (fun n => some n.value) ∧
      ns.length = (min 2 exHeapMain.size).toNat ∧
      (0 ≤ (2 : Int) → (ns.length : Int) = min 2 exHeapMain.size) ∧
      List.Pairwise HeapNode.leB ns ∧
      ((ns : List (HeapNode Int)) : Multiset (HeapNode Int))
        + ((rest : List (HeapNode Int)) : Multiset (HeapNode Int))
        = ((liveNodes exHeapMain : List (HeapNode Int)) : Multiset (HeapNode Int)) ∧
      (∀ a ∈ ns, ∀ b ∈ rest, HeapNode.leB a b) ∧
      (kSmallest exHeapMain 2).2 = exHeapMain :=
  ⟨by decide, by decide, by decide,
    c5_k_smallest_spec exHeapMain 2 (by decide) (by decide) (by decide)⟩

/-- Counterexample to claim C6 as stated: construction from the raw
non-iterable-free list `["abc"]`-like item fails with the built-in
`ValueError` from tuple unpacking — not with `ConfigurationError` (the source
defines no such exception and never raises one). -/
theorem c6_raw_value_wrong_error :
    minHeapNew [.rawWrongArity] none = .error .valueError ∧
    minHeapNew [.rawWrongArity] none ≠ .error .configurationError := by
  constructor
  · rfl
  · intro h
    have h2 : minHeapNew [.rawWrongArity] none = .error .valueError := rfl
    rw [h2] at h
    exact PyError.noConfusion (Except.error.inj h)

/-- Claim C6 (amended): construction given a raw (non-pair) value with no
`keyFn`, when no numeric priority can be derived from the value, fails — but
with the Python built-in unpacking error (`TypeError` for a non-iterable
value, `ValueError` for a sequence of the wrong arity), not with a dedicated
`ConfigurationError`, which the code never defines or raises. -/
theorem c6_raw_value_raises_unpack_error (good : List InitItem)
    (hgood : ∀ x ∈ good, x.isRaw = false) (bad : InitItem) (hbad : bad.isRaw = true)
    (rest : List InitItem) (key : Option (Int → Int)) :
    minHeapNew (good ++ bad :: rest) key = .error bad.unpackError ∧
    bad.unpackError ≠ PyError.configurationError := by
  refine ⟨minHeapNew_raw good hgood bad hbad rest key, ?_⟩
  cases bad <;> simp [InitItem.unpackError, InitItem.isRaw] at hbad ⊢

/-- Witness for the amended claim C6: two good items, then a wrong-arity raw
item, then more items. -/
theorem c6_raw_value_raises_unpack_error_witness :
    (∀ x ∈ [InitItem.num 3, InitItem.pair 2 7], x.isRaw = false) ∧
    InitItem.rawWrongArity.isRaw = true ∧
    (minHeapNew ([InitItem.num 3, InitItem.pair 2 7] ++ InitItem.rawWrongArity :: [InitItem.num 1])
        none = .error InitItem.rawWrongArity.unpackError ∧
      InitItem.rawWrongArity.unpackError ≠ PyError.configurationError) :=
  ⟨by decide, by decide,
    c6_raw_value_raises_unpack_error [InitItem.num 3, InitItem.pair 2 7] (by decide)
      InitItem.rawWrongArity (by decide) [InitItem.num 1] none⟩

/-- Claim C7 (code bug): the spec says `update_priority` repairs by sifting
up when the priority decreased, returns `True`, and never raises.  But
`HeapNode` defines only `__lt__` (the dataclass generates no `__le__`), so
the comparison `self.heap[parent_idx] <= temp` in `_sift_up` raises
`TypeError` whenever the matched node sits at index > 0 and the priority
decreased: on the heap `[(1,7),(5,8)]`, `update_priority(8, 0)` raises after
having already overwritten the node's priority in place.  (The module's own
self-test hits exactly this at `update_priority(("task3", 3), 0)`.) -/
theorem c7_update_priority_raises_type_error :
    (updatePriority exHeapTwo 8 0).2 = Except.error PyError.typeError ∧
    (updatePriority exHeapTwo 8 0).1.heap = exHeapTwo.heap ∧
    (getNodeD (updatePriority exHeapTwo 8 0).1.arena 1).priority = 0 := by
  refine ⟨rfl, rfl, rfl⟩

/-- Counterexample to claim C8 as stated: push once, then pop inside a
snapshot scope.  One successful push and one successful pop have happened,
but after the rollback `len(heap)` is 1, not `1 - 1 = 0`. -/
theorem c8_snapshot_breaks_size_law :
    (run (emptyHeap Int none) progSnapPop).2.2 = ⟨1, 0, 1, 0⟩ ∧
    (run (emptyHeap Int none) progSnapPop).1.size = 1 ∧
    (1 : Int) ≠ (1 : Int) + 0 - 1 - 0 := by decide

/-- Claim C8 (amended): over any program that uses no snapshot scopes (the
rollback discards mutations, so the unqualified law fails — see the
counterexample), `len(heap)` equals the number of successful pushes (bulk
elements included) plus merge absorptions minus successful pops (drain
extractions included) and successful removes, at every stopping point,
normal or exceptional. -/
theorem c8_size_law_scope_free {V : Type} [Inhabited V] [DecidableEq V]
    (prog : Prog V) (hsf : scopeFreeB prog = true) :
    (run (emptyHeap V none) prog).1.size
      = ((run (emptyHeap V none) prog).2.2.pushes : Int)
        + ((run (emptyHeap V none) prog).2.2.absorbed : Int)
        - ((run (emptyHeap V none) prog).2.2.pops : Int)
        - ((run (emptyHeap V none) prog).2.2.removes : Int) := by
  have h := (run_size_law prog (emptyHeap V none) hsf rfl).1
  rw [show (emptyHeap V none : MinHeap V).size = 0 from rfl, zero_add] at h
  exact h

/-- Witness for the amended claim C8: a scope-free program exercising every
mutating operation. -/
theorem c8_size_law_scope_free_witness :
    scopeFreeB progAllOps = true ∧
    (run (emptyHeap Int none) progAllOps).1.size
      = ((run (emptyHeap Int none) progAllOps).2.2.pushes : Int)
        + ((run (emptyHeap Int none) progAllOps).2.2.absorbed : Int)
        - ((run (emptyHeap Int none) progAllOps).2.2.pops : Int)
        - ((run (emptyHeap Int none) progAllOps).2.2.removes : Int) :=
  ⟨by decide, c8_size_law_scope_free progAllOps (by decide)⟩

/-- Claim C9: on an empty heap, `pop` and `peek` return the `None` sentinel
without mutating and without raising (the embedded operations have no raising
path); on a non-empty valid heap, `peek` returns the minimum node's
(priority, value) without mutating (it only reads), and `pop` removes exactly
the minimum node, returns its value, and decrements `size` by one. -/
theorem c9_pop_peek_empty_and_min {V : Type} [Inhabited V] [DecidableEq V]
    (s : MinHeap V) (hwf : WF s) (hh : HeapOkS s) :
    (s.heap = [] → pop s = (none, s) ∧ peek s = none) ∧
    (s.heap ≠ [] → ∃ m : HeapNode V,
      peek s = some (m.priority, m.value) ∧
      m ∈ liveNodes s ∧
      (∀ b ∈ liveNodes s, HeapNode.leB m b) ∧
      (pop s).1 = some m.value ∧
      (pop s).2.size = s.size - 1 ∧
      (pop s).2.arena = s.arena ∧
      (pop s).2.snapshots = s.snapshots ∧
      ((liveNodes (pop s).2 : List (HeapNode V)) : Multiset (HeapNode V)) + {m}
        = ((liveNodes s : List (HeapNode V)) : Multiset (HeapNode V))) :=
  pop_peek_spec s hwf hh

/-- Witness for claim C9: the empty heap's sentinel behavior, and the minimum
extraction on the Scenario-A heap. -/
theorem c9_pop_peek_empty_and_min_witness :
    (pop (emptyHeap Int none) = (none, emptyHeap Int none) ∧
      peek (emptyHeap Int none) = none) ∧
    ∃ m : HeapNode Int,
      peek exHeapMain = some (m.priority, m.value) ∧
      (pop exHeapMain).1 = some m.value ∧
      (pop exHeapMain).2.size = exHeapMain.size - 1 := by
  constructor
  · exact (c9_pop_peek_empty_and_min (emptyHeap Int none) (by decide) (by decide)).1 rfl
  · obtain ⟨m, h1, _, _, h4, h5, _⟩ :=
      (c9_pop_peek_empty_and_min exHeapMain (by decide) (by decide)).2 (by decide)
    exact ⟨m, h1, h4, h5⟩

/-- Claim C10: running any merge-free client program from a fresh heap —
snapshot scopes, rollbacks and exceptions included — leaves the arena such
that the `j`-th node ever created carries sequence number `j`: sequence
numbers are distinct, strictly increasing in creation order, and never
reused, because exiting a snapshot scope restores the heap storage and size
(`snapExit` writes back the saved id list and its length) but not the
insertion counter. -/
theorem c10_sequence_numbers_never_reused {V : Type} [Inhabited V] [DecidableEq V]
    (prog : Prog V) (hmf : mergeFreeB prog = true) :
    (∀ j, j < (run (emptyHeap V none) prog).1.arena.length →
      ((run (emptyHeap V none) prog).1.arena.getD j default).insertion_count = j) ∧
    (run (emptyHeap V none) prog).1.insertion_count
      = (run (emptyHeap V none) prog).1.arena.length ∧
    (∀ s : MinHeap V, (snapExit s).insertion_count = s.insertion_count ∧
      (snapExit s).heap = s.snapshots.getLastD [] ∧
      (snapExit s).size = ((s.snapshots.getLastD []).length : Int)) := by
  have h := run_arenaSeq prog (emptyHeap V none) hmf
    ⟨fun j hj => absurd hj (by simp [emptyHeap]), rfl⟩
  exact ⟨h.1, h.2, fun s => ⟨rfl, rfl, rfl⟩⟩

/-- Witness for claim C10: a push, a rolled-back scope containing a push, and
a push after it — three nodes ever created, sequence numbers 0, 1, 2, the
scope's number 1 never reused. -/
theorem c10_sequence_numbers_never_reused_witness :
    mergeFreeB progScopePush = true ∧
    (∀ j, j < (run (emptyHeap Int none) progScopePush).1.arena.length →
      ((run (emptyHeap Int none) progScopePush).1.arena.getD j default).insertion_count = j) ∧
    (run (emptyHeap Int none) progScopePush).1.insertion_count
      = (run (emptyHeap Int none) progScopePush).1.arena.length :=
  ⟨by decide, (c10_sequence_numbers_never_reused progScopePush (by decide)).1,
    (c10_sequence_numbers_never_reused progScopePush (by decide)).2.1⟩

end EG
